import Mathlib

/-!
Verification of the reconciliation engine of the missing-persons-utils
repository: the snapshot diff (src/compare.py, compare_dataframes) and the
ledger merge (src/streamlit_app.py, tab2 compare_button handler).

A pandas DataFrame is embedded as a list of column names plus positional
rows; a cell is an `Option String`, where `none` stands for a pandas
missing value (NaN / None).  Cell access by column name reads the first
position whose column name matches, exactly as label-based access does on
a frame without duplicate labels; a column absent from the frame reads as
missing.
-/

/-- Row of a DataFrame: one positional cell per column, `none` = NaN. -/
abbrev Row := List (Option String)

/-- Shallow embedding of a pandas DataFrame. -/
structure DF where
  cols : List String
  rows : List Row
deriving DecidableEq, Repr

/-- Value of column `c` in row `r` laid out over columns `cols` (first
occurrence; `none` when the column is absent or the row is short). -/
def getVal : List String → Row → String → Option String
  | [], _, _ => none
  | _, [], _ => none
  | c0 :: cs, v :: vs, c => if c0 == c then v else getVal cs vs c

/-- Overwrite the cell of column `c` (first occurrence) with `w`. -/
def setVal : List String → Row → String → Option String → Row
  | [], r, _, _ => r
  | _, [], _, _ => []
  | c0 :: cs, v :: vs, c, w => if c0 == c then w :: vs else v :: setVal cs vs c w

/-- Rows of a DataFrame are rectangular: every row has one cell per column. -/
def WF (df : DF) : Prop := ∀ r ∈ df.rows, r.length = df.cols.length

instance : DecidablePred WF := fun df =>
  inferInstanceAs (Decidable (∀ r ∈ df.rows, r.length = df.cols.length))

/-- Pandas elementwise `==` on two cells: NaN compares unequal to
everything, including NaN. -/
def pd_eq (a b : Option String) : Bool :=
  match a, b with
  | some x, some y => x == y
  | _, _ => false

/-- Pandas elementwise `!=` on two cells: NaN compares unequal to
everything, including NaN. -/
def pd_ne (a b : Option String) : Bool :=
  match a, b with
  | some x, some y => x != y
  | _, _ => true

/-- Both cells are missing (the `both_nan` mask of compare.py line 72). -/
def both_nan (a b : Option String) : Bool := a.isNone && b.isNone

/-- String `needle` is a prefix of `hay` (character lists). -/
def hasPre : List Char → List Char → Bool
  | [], _ => true
  | _ :: _, [] => false
  | n :: ns, h :: hs => n == h && hasPre ns hs

/-- Python substring containment `needle in hay` on character lists. -/
def containsSub : List Char → List Char → Bool
  | n, [] => n.isEmpty
  | n, h :: hs => hasPre n (h :: hs) || containsSub n (h :: hs).tail

/-- Python `needle in hay` on strings. -/
def substrOf (needle hay : String) : Bool := containsSub needle.data hay.data

/- ===================  compare.py : compare_dataframes  =================== -/

/-!
The docstring of compare_dataframes requires both inputs to have the same
columns (order may differ).  Under that contract every non-key column is
common to both frames, so each pandas merge suffixes every non-key column
with " (előző)" / " (új)", and the skip guard of line 66 never fires.  The
embedding below fixes that shared schema as `old.cols`, exactly the list
the source iterates over (lines 61 and 97).
-/

/-- Key tuple of a row: values of the key columns, in key order. -/
def keyOf (cols : List String) (keys : List String) (r : Row) : List (Option String) :=
  keys.map (getVal cols r)

/-- Rows of `new` whose key has no match in `old` (left-anti join of
compare.py lines 31-41; pandas merge keys join NaN to NaN). -/
def new_rows (old new : DF) (keys : List String) : List Row :=
  new.rows.filter (fun rn =>
    !(old.rows.any (fun ro => keyOf old.cols keys ro == keyOf new.cols keys rn)))

/-- Rows of `old` whose key has no match in `new` (compare.py lines 42-52). -/
def deleted_rows (old new : DF) (keys : List String) : List Row :=
  old.rows.filter (fun ro =>
    !(new.rows.any (fun rn => keyOf new.cols keys rn == keyOf old.cols keys ro)))

/-- Inner join of `old` and `new` on the key columns (compare.py line 55):
every old row paired with every key-equal new row, in join order. -/
def candidate_pairs (old new : DF) (keys : List String) : List (Row × Row) :=
  old.rows.flatMap (fun ro =>
    (new.rows.filter (fun rn => keyOf new.cols keys rn == keyOf old.cols keys ro)).map
      (fun rn => (ro, rn)))

/-- Changed-row mask of compare.py lines 58-73 for one candidate pair:
some non-key column differs, where a pair of present values differs by
value inequality, NaN against a present value differs, and NaN against
NaN does not. -/
def row_changed (old new : DF) (keys : List String) (p : Row × Row) : Bool :=
  (old.cols.filter (fun c => !(keys.contains c))).any (fun c =>
    pd_ne (getVal old.cols p.1 c) (getVal new.cols p.2 c) &&
      !(both_nan (getVal old.cols p.1 c) (getVal new.cols p.2 c)))

/-- Field comparison rule as the specification words it: missing equals
missing, missing differs from present, two present values compare by
exact equality.  Stated for comparison with the changed-mask of the code. -/
def field_differs (a b : Option String) : Bool :=
  match a, b with
  | none, none => false
  | some x, some y => x != y
  | _, _ => true

/-- Candidate pairs kept as changed rows (compare.py line 75). -/
def changed_pairs (old new : DF) (keys : List String) : List (Row × Row) :=
  (candidate_pairs old new keys).filter (row_changed old new keys)

/-- One row of the concatenated changes frame, as its two sides: the old
side (suffixed " (előző)") and the new side (suffixed " (új)").  A missing
side is the all-NaN block the left/anti merges produce. -/
structure ChangePair where
  bef : Option Row
  aft : Option Row
deriving DecidableEq, Repr

/-- The concatenated changes frame of compare.py line 78, in order: new
rows, then deleted rows, then changed rows. -/
def changes_list (old new : DF) (keys : List String) : List ChangePair :=
  (new_rows old new keys).map (fun rn => ⟨none, some rn⟩) ++
    (deleted_rows old new keys).map (fun ro => ⟨some ro, none⟩) ++
      (changed_pairs old new keys).map (fun p => ⟨some p.1, some p.2⟩)

/-- Change-kind tag assigned positionally by compare.py lines 84-92. -/
def kind_at (numNew numDel : Nat) (i : Nat) : String :=
  if i < numNew then "Új" else if i < numNew + numDel then "Törölt" else "Adatváltozás"

/-- Value of the " (előző)" column of `c` in a changes row. -/
def bval (old : DF) (cp : ChangePair) (c : String) : Option String :=
  match cp.bef with
  | some ro => getVal old.cols ro c
  | none => none

/-- Value of the " (új)" column of `c` in a changes row. -/
def aval (new : DF) (cp : ChangePair) (c : String) : Option String :=
  match cp.aft with
  | some rn => getVal new.cols rn c
  | none => none

/-- Collapse test of compare.py lines 101-105 for one changes row: both
sides equal as present values, or either side missing. -/
def collapse_ok (old new : DF) (c : String) (cp : ChangePair) : Bool :=
  pd_eq (bval old cp c) (aval new cp c) || (bval old cp c).isNone || (aval new cp c).isNone

/-- Non-key columns of the shared schema, in old-frame order. -/
def nonkey_cols (old : DF) (keys : List String) : List String :=
  old.cols.filter (fun c => !(keys.contains c))

/-- Columns collapsed to a single reconciled column (compare.py lines
96-106): the collapse test holds on every row of the whole changes frame. -/
def same_columns (old new : DF) (keys : List String) : List String :=
  (nonkey_cols old keys).filter (fun c =>
    (changes_list old new keys).all (collapse_ok old new c))

/-- Final column order produced by compare.py lines 109-131: the scan of
changes_df.columns meets the surviving " (előző)" names in old-column
order and appends each pair; the collapsed columns were appended to the
frame in same_columns order (line 112), hence follow; "Változás" is last. -/
def out_cols (old new : DF) (keys : List String) : List String :=
  keys ++
    ((nonkey_cols old keys).filter (fun c => !((same_columns old new keys).contains c))).flatMap
      (fun c => [c ++ " (előző)", c ++ " (új)"]) ++
    same_columns old new keys ++ ["Változás"]

/-- Reconciled value of a collapsed column: combine_first of the old side
with the new side (compare.py line 112). -/
def combine_first (a b : Option String) : Option String :=
  match a with
  | some v => some v
  | none => b

/-- Key value of a changes row: the merges put the left-frame key values
in the key columns, and on an inner join both sides agree. -/
def key_val (old new : DF) (cp : ChangePair) (k : String) : Option String :=
  match cp.bef with
  | some ro => getVal old.cols ro k
  | none =>
    match cp.aft with
    | some rn => getVal new.cols rn k
    | none => none

/-- One output row of the changes frame, laid out over `out_cols`. -/
def out_row (old new : DF) (keys : List String) (cp : ChangePair) (kind : String) : Row :=
  keys.map (key_val old new cp) ++
    ((nonkey_cols old keys).filter (fun c => !((same_columns old new keys).contains c))).flatMap
      (fun c => [bval old cp c, aval new cp c]) ++
    (same_columns old new keys).map (fun c => combine_first (bval old cp c) (aval new cp c)) ++
    [some kind]

/-- Embedding of compare_dataframes (src/compare.py lines 7-133) under its
documented same-columns contract. -/
def compare_dataframes (old new : DF) (keys : List String) : DF :=
  ⟨out_cols old new keys,
    ((changes_list old new keys).enum.map (fun cpi =>
      out_row old new keys cpi.2
        (kind_at (new_rows old new keys).length (deleted_rows old new keys).length cpi.1)))⟩

/- ============  streamlit_app.py tab2 : the ledger merge flow  ============ -/

/-- Fixed key column pair of the merge (streamlit_app.py line 276). -/
def idOf (cols : List String) (r : Row) : Option String × Option String :=
  (getVal cols r "Név", getVal cols r "Születési dátum")

/-- Required base columns ensured on the ledger (lines 279-285). -/
def requiredBase : List String :=
  ["Név", "Nem", "Születési hely", "Születési dátum", "Születési ország"]

/-- Label of the dated observation columns. -/
def eltunesLabel : String := "Eltűnés dátuma"

/-- Column name contains the disappearance-date label (Python
`"Eltűnés dátuma" in col`, line 222). -/
def isDated (c : String) : Bool := substrOf eltunesLabel c

/-- Append one empty column to a frame: every existing row gets NaN. -/
def addCol (df : DF) (c : String) : DF :=
  ⟨df.cols ++ [c], df.rows.map (fun r => r ++ [none])⟩

/-- Lines 286-294: add every absent required column as an empty column
(both source branches insert None; they differ only in a warning). -/
def addMissingCols (df : DF) (cs : List String) : DF :=
  cs.foldl (fun acc c => if acc.cols.contains c then acc else addCol acc c) df

/-- Lines 220-244: choose the dated column name and its source column in
the new data.  The first column containing the label is used for both;
otherwise a merge-date name is derived when the plain label column exists
(unreachable, since the plain label contains itself); otherwise fail. -/
def pickEltunes (newdf : DF) (current_date : String) : Option (String × String) :=
  match newdf.cols.filter isDated with
  | c :: _ => some (c, c)
  | [] =>
    if newdf.cols.contains eltunesLabel then
      some (eltunesLabel ++ " " ++ current_date, eltunesLabel)
    else
      none

/-- Pandas boolean-mask equality of a ledger row against an id pair
(lines 311-316): NaN matches nothing, present values match by equality. -/
def maskMatch (cols : List String) (r : Row) (p : Option String × Option String) : Bool :=
  pd_eq (getVal cols r "Név") p.1 && pd_eq (getVal cols r "Születési dátum") p.2

/-- Inner join of the two id-column frames (lines 301-306): one id pair
per matching (ledger row, new row) combination, in ledger order. -/
def common_people (ong newdf : DF) : List (Option String × Option String) :=
  ong.rows.flatMap (fun ro =>
    (newdf.rows.filter (fun rn => idOf newdf.cols rn == idOf ong.cols ro)).map
      (fun _ => idOf ong.cols ro))

/-- Lines 319-321: the missing date taken from the first new row the mask
matches; `none` when the mask matches nothing (the source raises there). -/
def lookup_missing_date (newdf : DF) (src : String) (p : Option String × Option String) :
    Option (Option String) :=
  (newdf.rows.find? (fun rn => maskMatch newdf.cols rn p)).map
    (fun rn => getVal newdf.cols rn src)

/-- Update loop of lines 309-326: for each common id pair, write the
looked-up missing date into the dated column of every masked ledger row. -/
def update_commons (cols : List String) (el src : String) (newdf : DF) :
    List Row → List (Option String × Option String) → Option (List Row)
  | rows, [] => some rows
  | rows, p :: ps =>
    match lookup_missing_date newdf src p with
    | none => none
    | some d =>
      update_commons cols el src newdf
        (rows.map (fun r => if maskMatch cols r p then setVal cols r el d else r)) ps

/-- Lines 329-338: id pairs of new rows with no id match in the ledger. -/
def new_only_people (ong newdf : DF) : List (Option String × Option String) :=
  (newdf.rows.filter (fun rn =>
    !(ong.rows.any (fun ro => idOf ong.cols ro == idOf newdf.cols rn)))).map
    (fun rn => idOf newdf.cols rn)

/-- Lines 347-361 for one appended row: every ledger column is filled from
the new row (absent columns read NaN), the dated column from the source
column, and the row is laid out in ledger column order. -/
def new_record_row (ongCols : List String) (newdf : DF) (el src : String) (rn : Row) : Row :=
  ongCols.map (fun c => if c == el then getVal newdf.cols rn src else getVal newdf.cols rn c)

/-- Lines 341-361: the appended records, the inner join of the new data
with the new-only id pairs, in new-data order. -/
def new_records (ongCols : List String) (newdf : DF) (el src : String)
    (newOnly : List (Option String × Option String)) : List Row :=
  (newdf.rows.flatMap (fun rn =>
    (newOnly.filter (fun p => p == idOf newdf.cols rn)).map (fun _ => rn))).map
    (new_record_row ongCols newdf el src)

/-- Counts reported on the summary sheet (lines 371-373 and 397-408). -/
structure MergeStats where
  prior : Int
  incoming : Int
  numCommon : Int
  numNew : Int
  numOnlyInOngoing : Int
  final : Int
deriving DecidableEq, Repr

/-- Abort causes of the merge handler: an empty input file (line 213), no
dated column in the new data (line 241), a missing required column (line
252), and the IndexError of line 321 caught by the outer handler. -/
inductive MergeError where
  | emptyInput
  | missingEltunes
  | missingRequired
  | lookupFailed
deriving DecidableEq, Repr

/-- Outcome of one press of the merge button: an abort with no output, or
the merged ledger plus its statistics. -/
inductive MergeResult where
  | err (e : MergeError)
  | ok (ledger : DF) (stats : MergeStats)
deriving DecidableEq, Repr

/-- Lines 279-298: the ledger widened by the absent required base columns
and, when still absent, by the empty dated column. -/
def ong2Of (ong : DF) (el : String) : DF :=
  let ong1 := addMissingCols ong requiredBase
  if ong1.cols.contains el then ong1 else addCol ong1 el

/-- Rows of the merged ledger after the update loop, given the post-loop
rows: the appended new records when any id pair is new-only (lines
341-366), nothing otherwise. -/
def rows2Of (ong2cols : List String) (newdf : DF) (el src : String) (rows1 : List Row) :
    List Row :=
  let newOnly := new_only_people ⟨ong2cols, rows1⟩ newdf
  if newOnly.isEmpty then rows1
  else rows1 ++ new_records ong2cols newdf el src newOnly

/-- Merge work after all guards passed (lines 272-373). -/
def merge_main (ong newdf : DF) (el src : String) : MergeResult :=
  let ong2 := ong2Of ong el
  let commons := common_people ong2 newdf
  match update_commons ong2.cols el src newdf ong2.rows commons with
  | none => .err .lookupFailed
  | some rows1 =>
    let newOnly := new_only_people ⟨ong2.cols, rows1⟩ newdf
    let rows2 := rows2Of ong2.cols newdf el src rows1
    .ok ⟨ong2.cols, rows2⟩
      ⟨(ong.rows.length : Int), (newdf.rows.length : Int), (commons.length : Int),
        (newOnly.length : Int),
        ((rows2.length : Int) - (commons.length : Int) - (newOnly.length : Int)),
        (rows2.length : Int)⟩

/-- Embedding of the tab2 compare_button merge handler (streamlit_app.py
lines 196-373): guards, column selection, ledger widening, the common-row
update loop, the appended new records, and the reported statistics. -/
def merge_flow (ong newdf : DF) (current_date : String) : MergeResult :=
  if ong.rows.isEmpty || newdf.rows.isEmpty then .err .emptyInput else
  match pickEltunes newdf current_date with
  | none => .err .missingEltunes
  | some (el, src) =>
    if !(["Név", "Születési dátum", src].all (fun c => newdf.cols.contains c)) then
      .err .missingRequired
    else
      merge_main ong newdf el src

/-- Effect of one iteration of the update loop on one ledger row. -/
def chainStep (cols : List String) (el src : String) (newdf : DF) (r : Row)
    (p : Option String × Option String) : Row :=
  match lookup_missing_date newdf src p with
  | some d => if maskMatch cols r p then setVal cols r el d else r
  | none => r

/-- Effect of the whole update loop on one ledger row. -/
def chainUpd (cols : List String) (el src : String) (newdf : DF)
    (ps : List (Option String × Option String)) (r : Row) : Row :=
  ps.foldl (chainStep cols el src newdf) r

/- =======================  helper lemmas : cells  ======================= -/

theorem getVal_nil_cols (r : Row) (c : String) : getVal [] r c = none := by
  cases r <;> rfl

theorem getVal_nil_row (cols : List String) (c : String) : getVal cols [] c = none := by
  cases cols <;> rfl

theorem getVal_cons (c0 : String) (cs : List String) (v : Option String) (vs : Row)
    (c : String) : getVal (c0 :: cs) (v :: vs) c = if c0 = c then v else getVal cs vs c := by
  simp [getVal, beq_iff_eq]

theorem setVal_nil_cols (r : Row) (c : String) (w : Option String) : setVal [] r c w = r := by
  cases r <;> rfl

theorem setVal_nil_row (cols : List String) (c : String) (w : Option String) :
    setVal cols [] c w = [] := by
  cases cols <;> rfl

theorem setVal_cons (c0 : String) (cs : List String) (v : Option String) (vs : Row)
    (c : String) (w : Option String) :
    setVal (c0 :: cs) (v :: vs) c w = if c0 = c then w :: vs else v :: setVal cs vs c w := by
  simp [setVal, beq_iff_eq]

theorem getVal_not_contains (cols : List String) (r : Row) (c : String)
    (h : cols.contains c = false) : getVal cols r c = none := by
  induction cols generalizing r with
  | nil => exact getVal_nil_cols r c
  | cons c0 cs ih =>
    cases r with
    | nil => exact getVal_nil_row _ c
    | cons v vs =>
      simp only [List.contains_cons, Bool.or_eq_false_iff, beq_eq_false_iff_ne] at h
      rw [getVal_cons, if_neg (fun he => h.1 (Eq.symm he))]
      exact ih vs h.2

theorem getVal_append (A B : List String) (a b : Row) (c : String)
    (h : A.length = a.length) :
    getVal (A ++ B) (a ++ b) c = if A.contains c then getVal A a c else getVal B b c := by
  induction A generalizing a with
  | nil =>
    cases a with
    | nil => simp
    | cons v vs => simp at h
  | cons c0 cs ih =>
    cases a with
    | nil => simp at h
    | cons v vs =>
      by_cases h0 : c0 = c
      · subst h0
        simp [getVal_cons]
      · have hcont : (c0 :: cs).contains c = cs.contains c := by
          rw [List.contains_cons, beq_eq_false_iff_ne.mpr (fun he => h0 (Eq.symm he)),
            Bool.false_or]
        rw [List.cons_append, List.cons_append, getVal_cons, if_neg h0, hcont,
          getVal_cons, if_neg h0]
        exact ih vs (by simpa using h)

theorem getVal_map_self (l : List String) (f : String → Option String) (c : String) :
    getVal l (l.map f) c = if l.contains c then f c else none := by
  induction l with
  | nil => simp [getVal_nil_cols]
  | cons c0 cs ih =>
    by_cases h0 : c0 = c
    · subst h0
      simp [List.map_cons, getVal_cons]
    · have hcont : (c0 :: cs).contains c = cs.contains c := by
        rw [List.contains_cons, beq_eq_false_iff_ne.mpr (fun he => h0 (Eq.symm he)),
          Bool.false_or]
      rw [List.map_cons, getVal_cons, if_neg h0, hcont, ih]

theorem getVal_replicate_none (l : List String) (n : Nat) (c : String) :
    getVal l (List.replicate n (none : Option String)) c = none := by
  induction l generalizing n with
  | nil => exact getVal_nil_cols _ c
  | cons c0 cs ih =>
    cases n with
    | zero => exact getVal_nil_row _ c
    | succ m =>
      rw [List.replicate_succ, getVal_cons]
      split
      · rfl
      · exact ih m

theorem setVal_length (cols : List String) (r : Row) (c : String) (w : Option String) :
    (setVal cols r c w).length = r.length := by
  induction cols generalizing r with
  | nil => rw [setVal_nil_cols]
  | cons c0 cs ih =>
    cases r with
    | nil => rw [setVal_nil_row]
    | cons v vs =>
      rw [setVal_cons]
      split
      · rfl
      · simp [ih]

theorem getVal_setVal_same (cols : List String) (r : Row) (c : String) (w : Option String)
    (hlen : r.length = cols.length) (hc : cols.contains c = true) :
    getVal cols (setVal cols r c w) c = w := by
  induction cols generalizing r with
  | nil => simp at hc
  | cons c0 cs ih =>
    cases r with
    | nil => simp at hlen
    | cons v vs =>
      rw [setVal_cons]
      by_cases h0 : c0 = c
      · rw [if_pos h0, getVal_cons, if_pos h0]
      · rw [if_neg h0, getVal_cons, if_neg h0]
        refine ih vs (by simpa using hlen) ?_
        simp only [List.contains_cons, Bool.or_eq_true, beq_iff_eq] at hc
        rcases hc with hc | hc
        · exact absurd (Eq.symm hc) h0
        · exact hc

theorem getVal_setVal_ne (cols : List String) (r : Row) (c c' : String) (w : Option String)
    (h : c ≠ c') : getVal cols (setVal cols r c' w) c = getVal cols r c := by
  induction cols generalizing r with
  | nil => rw [setVal_nil_cols]
  | cons c0 cs ih =>
    cases r with
    | nil => rw [setVal_nil_row]
    | cons v vs =>
      rw [setVal_cons]
      by_cases h0 : c0 = c'
      · have hc0 : c0 ≠ c := fun he => h (he ▸ h0)
        rw [if_pos h0, getVal_cons, if_neg hc0, getVal_cons, if_neg hc0]
      · rw [if_neg h0, getVal_cons, getVal_cons]
        split
        · rfl
        · exact ih vs

theorem setVal_self (cols : List String) (r : Row) (c : String) (w : Option String)
    (h : getVal cols r c = w) : setVal cols r c w = r := by
  induction cols generalizing r with
  | nil => exact setVal_nil_cols r c w
  | cons c0 cs ih =>
    cases r with
    | nil => exact setVal_nil_row _ c w
    | cons v vs =>
      rw [getVal_cons] at h
      rw [setVal_cons]
      by_cases h0 : c0 = c
      · rw [if_pos h0] at h ⊢
        rw [h]
      · rw [if_neg h0] at h ⊢
        rw [ih vs h]

/- =================  helper lemmas : substrings, widening  ================= -/

theorem contains_append_eq (l1 l2 : List String) (x : String) :
    (l1 ++ l2).contains x = (l1.contains x || l2.contains x) := by
  simp only [List.contains, List.elem_eq_mem, List.mem_append]
  by_cases h1 : x ∈ l1 <;> by_cases h2 : x ∈ l2 <;> simp [h1, h2]

theorem hasPre_self_append (n t : List Char) : hasPre n (n ++ t) = true := by
  induction n with
  | nil => rfl
  | cons a as ih => simp [hasPre, ih]

theorem containsSub_self_append (n t : List Char) : containsSub n (n ++ t) = true := by
  cases n with
  | nil => cases t <;> simp [containsSub, hasPre]
  | cons a as => simp [containsSub, hasPre, hasPre_self_append]

theorem isDated_append (t : String) : isDated (eltunesLabel ++ t) = true := by
  have : (eltunesLabel ++ t).data = eltunesLabel.data ++ t.data := String.data_append _ _
  simp [isDated, substrOf, this, containsSub_self_append]

theorem pickEltunes_eq (nd : DF) (d el src : String)
    (h : pickEltunes nd d = some (el, src)) :
    src = el ∧ ∃ t, nd.cols.filter isDated = el :: t := by
  unfold pickEltunes at h
  cases hf : nd.cols.filter isDated with
  | cons c t =>
    rw [hf] at h
    cases h
    exact ⟨rfl, t, rfl⟩
  | nil =>
    rw [hf] at h
    by_cases hl : nd.cols.contains eltunesLabel
    · have hmem : eltunesLabel ∈ nd.cols := by simpa using hl
      have : eltunesLabel ∈ nd.cols.filter isDated :=
        List.mem_filter.mpr ⟨hmem, by decide⟩
      rw [hf] at this
      simp at this
    · rw [if_neg hl] at h
      simp at h

theorem pickEltunes_dated (nd : DF) (d el src : String)
    (h : pickEltunes nd d = some (el, src)) : isDated el = true := by
  obtain ⟨-, t, ht⟩ := pickEltunes_eq nd d el src h
  have : el ∈ nd.cols.filter isDated := by rw [ht]; exact List.mem_cons_self el t
  exact (List.mem_filter.mp this).2

theorem widen_getVal (cols ext : List String) (r : Row) (k : Nat) (c : String)
    (h : cols.length = r.length) :
    getVal (cols ++ ext) (r ++ List.replicate k none) c = getVal cols r c := by
  rw [getVal_append cols ext r _ c h]
  split
  · rfl
  · rw [getVal_replicate_none,
      getVal_not_contains cols r c (Bool.not_eq_true _ ▸ (by assumption))]

theorem addMissing_spec (df : DF) (cs : List String) :
    ∃ ext : List String,
      (addMissingCols df cs).cols = df.cols ++ ext ∧
      (addMissingCols df cs).rows =
        df.rows.map (fun r => r ++ List.replicate ext.length (none : Option String)) ∧
      ∀ c ∈ ext, c ∈ cs ∧ df.cols.contains c = false := by
  induction cs generalizing df with
  | nil =>
    refine ⟨[], by simp [addMissingCols], by simp [addMissingCols], by simp⟩
  | cons c cs ih =>
    by_cases hc : df.cols.contains c
    · have hstep : addMissingCols df (c :: cs) = addMissingCols df cs := by
        simp only [addMissingCols, List.foldl_cons]
        rw [if_pos hc]
      obtain ⟨ext, h1, h2, h3⟩ := ih df
      exact ⟨ext, hstep ▸ h1, hstep ▸ h2, fun x hx =>
        ⟨List.mem_cons_of_mem c (h3 x hx).1, (h3 x hx).2⟩⟩
    · have hstep : addMissingCols df (c :: cs) = addMissingCols (addCol df c) cs := by
        simp only [addMissingCols, List.foldl_cons]
        rw [if_neg hc]
      obtain ⟨ext, h1, h2, h3⟩ := ih (addCol df c)
      refine ⟨c :: ext, ?_, ?_, ?_⟩
      · rw [hstep, h1]
        simp [addCol]
      · rw [hstep, h2]
        simp only [addCol, List.map_map]
        refine List.map_congr_left (fun r hr => ?_)
        simp [List.replicate_succ, Function.comp]
      · intro x hx
        rcases List.mem_cons.mp hx with hx | hx
        · subst hx
          exact ⟨List.mem_cons_self x cs, by simpa using hc⟩
        · obtain ⟨hm, hn⟩ := h3 x hx
          refine ⟨List.mem_cons_of_mem c hm, ?_⟩
          simp only [addCol, contains_append_eq, Bool.or_eq_false_iff] at hn
          exact hn.1

theorem ong2_spec (ong : DF) (el : String) :
    ∃ ext : List String,
      (ong2Of ong el).cols = ong.cols ++ ext ∧
      (ong2Of ong el).rows =
        ong.rows.map (fun r => r ++ List.replicate ext.length (none : Option String)) ∧
      ∀ c ∈ ext, (c ∈ requiredBase ∨ c = el) ∧ ong.cols.contains c = false := by
  obtain ⟨ext, h1, h2, h3⟩ := addMissing_spec ong requiredBase
  unfold ong2Of
  by_cases hc : (addMissingCols ong requiredBase).cols.contains el
  · rw [if_pos hc]
    exact ⟨ext, h1, h2, fun c h => ⟨Or.inl (h3 c h).1, (h3 c h).2⟩⟩
  · rw [if_neg hc]
    refine ⟨ext ++ [el], ?_, ?_, ?_⟩
    · simp [addCol, h1]
    · simp only [addCol, h2, List.map_map]
      refine List.map_congr_left (fun r hr => ?_)
      have : List.replicate (ext ++ [el]).length (none : Option String) =
          List.replicate ext.length none ++ [none] := by
        rw [List.length_append, List.length_singleton, List.replicate_succ' ]
      simp only [this, Function.comp]
      rw [List.append_assoc]
    · intro c h
      rcases List.mem_append.mp h with h | h
      · exact ⟨Or.inl (h3 c h).1, (h3 c h).2⟩
      · have : c = el := by simpa using h
        subst this
        rw [h1] at hc
        rw [contains_append_eq] at hc
        simp only [Bool.or_eq_true, not_or, Bool.not_eq_true] at hc
        exact ⟨Or.inr rfl, hc.1⟩

theorem ong2_contains_el (ong : DF) (el : String) :
    (ong2Of ong el).cols.contains el = true := by
  unfold ong2Of
  by_cases hc : (addMissingCols ong requiredBase).cols.contains el
  · rw [if_pos hc]
    exact hc
  · rw [if_neg hc]
    simp [addCol]

/- ==============  helper lemmas : the common-row update loop  ============== -/

theorem update_commons_eq (cols : List String) (el src : String) (newdf : DF)
    (rows : List Row) (ps : List (Option String × Option String))
    (h : ∀ p ∈ ps, (lookup_missing_date newdf src p).isSome = true) :
    update_commons cols el src newdf rows ps =
      some (rows.map (chainUpd cols el src newdf ps)) := by
  induction ps generalizing rows with
  | nil =>
    rw [update_commons]
    refine congrArg some ?_
    have : List.map (chainUpd cols el src newdf []) rows = List.map id rows :=
      List.map_congr_left (fun r hr => rfl)
    rw [this, List.map_id]
  | cons p ps ih =>
    obtain ⟨d, hd⟩ := Option.isSome_iff_exists.mp (h p (List.mem_cons_self p ps))
    rw [update_commons, hd]
    show update_commons cols el src newdf
        (rows.map (fun r => if maskMatch cols r p = true then setVal cols r el d else r)) ps =
      some (List.map (chainUpd cols el src newdf (p :: ps)) rows)
    rw [ih _ (fun q hq => h q (List.mem_cons_of_mem p hq)), List.map_map]
    refine congrArg some (List.map_congr_left (fun r hr => ?_))
    simp only [Function.comp]
    unfold chainUpd
    rw [List.foldl_cons]
    unfold chainStep
    rw [hd]

theorem chain_length (cols : List String) (el src : String) (newdf : DF)
    (ps : List (Option String × Option String)) (r : Row) :
    (chainUpd cols el src newdf ps r).length = r.length := by
  induction ps generalizing r with
  | nil => rfl
  | cons p ps ih =>
    unfold chainUpd
    rw [List.foldl_cons]
    unfold chainUpd at ih
    rw [ih]
    unfold chainStep
    cases lookup_missing_date newdf src p with
    | none => rfl
    | some d =>
      simp only
      split
      · exact setVal_length cols r el d
      · rfl

theorem chain_frame (cols : List String) (el src : String) (newdf : DF)
    (ps : List (Option String × Option String)) (r : Row) (c : String) (hc : c ≠ el) :
    getVal cols (chainUpd cols el src newdf ps r) c = getVal cols r c := by
  induction ps generalizing r with
  | nil => rfl
  | cons p ps ih =>
    unfold chainUpd
    rw [List.foldl_cons]
    unfold chainUpd at ih
    rw [ih]
    unfold chainStep
    cases lookup_missing_date newdf src p with
    | none => rfl
    | some d =>
      simp only
      split
      · exact getVal_setVal_ne cols r c el d hc
      · rfl

theorem maskMatch_setVal (cols : List String) (r : Row) (el : String) (d : Option String)
    (p : Option String × Option String) (h1 : "Név" ≠ el) (h2 : "Születési dátum" ≠ el) :
    maskMatch cols (setVal cols r el d) p = maskMatch cols r p := by
  unfold maskMatch
  rw [getVal_setVal_ne cols r _ el d h1, getVal_setVal_ne cols r _ el d h2]

theorem chain_id (cols : List String) (el src : String) (newdf : DF)
    (ps : List (Option String × Option String)) (r : Row)
    (h : ∀ q ∈ ps, maskMatch cols r q = true →
      lookup_missing_date newdf src q = some (getVal cols r el)) :
    chainUpd cols el src newdf ps r = r := by
  induction ps with
  | nil => rfl
  | cons q qs ih =>
    unfold chainUpd
    rw [List.foldl_cons]
    unfold chainUpd at ih
    have hstep : chainStep cols el src newdf r q = r := by
      unfold chainStep
      cases hl : lookup_missing_date newdf src q with
      | none => rfl
      | some d =>
        simp only
        split
        · have := h q (List.mem_cons_self q qs) (by assumption)
          rw [hl] at this
          exact setVal_self cols r el d (by injection this with h0; exact h0.symm)
        · rfl
    rw [hstep]
    exact ih (fun q' hq' => h q' (List.mem_cons_of_mem q hq'))

theorem chain_after_set (cols : List String) (el src : String) (newdf : DF)
    (ps : List (Option String × Option String)) (r : Row) (d : Option String)
    (hstart : getVal cols r el = d)
    (h : ∀ q ∈ ps, maskMatch cols r q = true →
      lookup_missing_date newdf src q = some d) :
    getVal cols (chainUpd cols el src newdf ps r) el = d := by
  rw [chain_id cols el src newdf ps r (fun q hq hm => by rw [hstart]; exact h q hq hm)]
  exact hstart

theorem chain_hit (cols : List String) (el src : String) (newdf : DF)
    (ps : List (Option String × Option String)) (r : Row) (d : Option String)
    (hlen : r.length = cols.length) (hcont : cols.contains el = true)
    (h1 : "Név" ≠ el) (h2 : "Születési dátum" ≠ el)
    (hex : ∃ q ∈ ps, maskMatch cols r q = true)
    (hall : ∀ q ∈ ps, maskMatch cols r q = true →
      lookup_missing_date newdf src q = some d) :
    getVal cols (chainUpd cols el src newdf ps r) el = d := by
  induction ps generalizing r with
  | nil => simp at hex
  | cons q qs ih =>
    unfold chainUpd
    rw [List.foldl_cons]
    unfold chainUpd at ih
    by_cases hm : maskMatch cols r q = true
    · have hl : lookup_missing_date newdf src q = some d :=
        hall q (List.mem_cons_self q qs) hm
      have hstep : chainStep cols el src newdf r q = setVal cols r el d := by
        unfold chainStep
        rw [hl]
        simp only [hm, if_true]
      rw [hstep]
      refine chain_after_set cols el src newdf qs (setVal cols r el d) d
        (getVal_setVal_same cols r el d hlen hcont) (fun q' hq' hm' => ?_)
      rw [maskMatch_setVal cols r el d q' h1 h2] at hm'
      exact hall q' (List.mem_cons_of_mem q hq') hm'
    · have hstep : chainStep cols el src newdf r q = r := by
        unfold chainStep
        cases lookup_missing_date newdf src q with
        | none => rfl
        | some d' =>
          simp only
          rw [if_neg hm]
      rw [hstep]
      obtain ⟨q', hq', hmq'⟩ := hex
      rcases List.mem_cons.mp hq' with he | he
      · subst he
        exact absurd hmq' hm
      · exact ih r hlen ⟨q', he, hmq'⟩
          (fun q'' hq'' hm'' => hall q'' (List.mem_cons_of_mem q hq'') hm'')

/- ===============  helper lemmas : counting and uniqueness  =============== -/

theorem map_nodup_inj {α β : Type} (l : List α) (f : α → β)
    (hnd : (l.map f).Nodup) {a b : α} (ha : a ∈ l) (hb : b ∈ l) (hf : f a = f b) :
    a = b := by
  induction l with
  | nil => simp at ha
  | cons x xs ih =>
    rw [List.map_cons, List.nodup_cons] at hnd
    rcases List.mem_cons.mp ha with ha' | ha' <;> rcases List.mem_cons.mp hb with hb' | hb'
    · rw [ha', hb']
    · have hmem : f b ∈ xs.map f := List.mem_map_of_mem f hb'
      rw [ha'] at hf
      rw [← hf] at hmem
      exact absurd hmem hnd.1
    · have hmem : f a ∈ xs.map f := List.mem_map_of_mem f ha'
      rw [hb'] at hf
      rw [hf] at hmem
      exact absurd hmem hnd.1
    · exact ih hnd.2 ha' hb'

theorem filter_key_len {α β : Type} [BEq β] [LawfulBEq β] (l : List α) (f : α → β)
    (hnd : (l.map f).Nodup) (b : β) :
    (l.filter (fun x => f x == b)).length = if b ∈ l.map f then 1 else 0 := by
  induction l with
  | nil => simp
  | cons x xs ih =>
    rw [List.map_cons, List.nodup_cons] at hnd
    by_cases hx : f x = b
    · have hb_not : b ∉ xs.map f := hx ▸ hnd.1
      have hfil : xs.filter (fun y => f y == b) = [] := by
        refine List.filter_eq_nil_iff.mpr (fun y hy hby => ?_)
        exact hb_not (eq_of_beq hby ▸ List.mem_map_of_mem f hy)
      rw [List.filter_cons_of_pos (by simpa using hx), hfil]
      simp [hx]
    · rw [List.filter_cons_of_neg (by simpa using hx), ih hnd.2, List.map_cons]
      by_cases hb : b ∈ xs.map f
      · rw [if_pos hb, if_pos (List.mem_cons_of_mem _ hb)]
      · rw [if_neg hb, if_neg (fun hmem => ?_)]
        rcases List.mem_cons.mp hmem with h | h
        · exact hx (Eq.symm h)
        · exact hb h

theorem length_flatMap_indicator {α β : Type} (l : List α) (f : α → List β) (p : α → Bool)
    (h : ∀ x ∈ l, (f x).length = if p x then 1 else 0) :
    (l.flatMap f).length = (l.filter p).length := by
  induction l with
  | nil => rfl
  | cons x xs ih =>
    rw [List.flatMap_cons, List.length_append,
      ih (fun y hy => h y (List.mem_cons_of_mem x hy)), h x (List.mem_cons_self x xs)]
    by_cases hp : p x = true
    · rw [if_pos hp, List.filter_cons_of_pos hp, List.length_cons]
      omega
    · rw [if_neg hp, List.filter_cons_of_neg (by simpa using hp)]
      omega

theorem pd_eq_true_iff (a b : Option String) :
    pd_eq a b = true ↔ ∃ x, a = some x ∧ b = some x := by
  cases a with
  | none => simp [pd_eq]
  | some x =>
    cases b with
    | none => simp [pd_eq]
    | some y =>
      simp only [pd_eq, beq_iff_eq]
      constructor
      · intro h; exact ⟨x, rfl, by rw [h]⟩
      · rintro ⟨z, hz1, hz2⟩
        injection hz1 with h1
        injection hz2 with h2
        rw [h1, h2]

theorem maskMatch_of_idOf (cols : List String) (r : Row)
    (p : Option String × Option String) (hid : idOf cols r = p)
    (h1 : (p.1).isSome = true) (h2 : (p.2).isSome = true) :
    maskMatch cols r p = true := by
  obtain ⟨x, hx⟩ := Option.isSome_iff_exists.mp h1
  obtain ⟨y, hy⟩ := Option.isSome_iff_exists.mp h2
  have hn : getVal cols r "Név" = p.1 := by rw [← hid]; rfl
  have hd : getVal cols r "Születési dátum" = p.2 := by rw [← hid]; rfl
  unfold maskMatch
  rw [hn, hd, hx, hy]
  simp [pd_eq]

theorem maskMatch_idOf_eq (cols : List String) (r : Row)
    (p : Option String × Option String) (h : maskMatch cols r p = true) :
    idOf cols r = p ∧ (p.1).isSome = true ∧ (p.2).isSome = true := by
  obtain ⟨p1, p2⟩ := p
  unfold maskMatch at h
  rw [Bool.and_eq_true] at h
  obtain ⟨x, hx1, hx2⟩ := (pd_eq_true_iff _ _).mp h.1
  obtain ⟨y, hy1, hy2⟩ := (pd_eq_true_iff _ _).mp h.2
  simp only at hx2 hy2
  constructor
  · unfold idOf
    rw [hx1, hx2, hy1, hy2]
  · rw [hx2, hy2]
    exact ⟨rfl, rfl⟩

theorem common_people_mem (ong nd : DF) (p : Option String × Option String) :
    p ∈ common_people ong nd ↔
      ∃ ro ∈ ong.rows, p = idOf ong.cols ro ∧
        ∃ rn ∈ nd.rows, idOf nd.cols rn = idOf ong.cols ro := by
  unfold common_people
  rw [List.mem_flatMap]
  constructor
  · rintro ⟨ro, hro, hmem⟩
    obtain ⟨rn, hrn, hconst⟩ := List.mem_map.mp hmem
    obtain ⟨hrn', hbeq⟩ := List.mem_filter.mp hrn
    exact ⟨ro, hro, hconst.symm, rn, hrn', by simpa using hbeq⟩
  · rintro ⟨ro, hro, hp, rn, hrn, heq⟩
    refine ⟨ro, hro, List.mem_map.mpr ⟨rn, List.mem_filter.mpr ⟨hrn, by simpa using heq⟩,
      hp.symm⟩⟩

theorem new_only_people_mem (ong nd : DF) (p : Option String × Option String) :
    p ∈ new_only_people ong nd ↔
      ∃ rn ∈ nd.rows, p = idOf nd.cols rn ∧
        ∀ ro ∈ ong.rows, idOf ong.cols ro ≠ idOf nd.cols rn := by
  unfold new_only_people
  rw [List.mem_map]
  constructor
  · rintro ⟨rn, hrn, hconst⟩
    obtain ⟨hrn', hnone⟩ := List.mem_filter.mp hrn
    refine ⟨rn, hrn', hconst.symm, fun ro hro heq => ?_⟩
    rw [Bool.not_eq_true', List.any_eq_false] at hnone
    exact absurd (by simpa using heq) (by simpa using hnone ro hro)
  · rintro ⟨rn, hrn, hp, hnone⟩
    refine ⟨rn, List.mem_filter.mpr ⟨hrn, ?_⟩, hp.symm⟩
    rw [Bool.not_eq_true', List.any_eq_false]
    intro ro hro
    simpa using hnone ro hro

/- ==================  helper lemmas : merge flow inversion  ================== -/

theorem merge_flow_ok_inv (ong nd : DF) (d : String) (out : DF) (s : MergeStats)
    (h : merge_flow ong nd d = .ok out s) :
    ∃ el src rows1,
      pickEltunes nd d = some (el, src) ∧
      (["Név", "Születési dátum", src].all (fun c => nd.cols.contains c)) = true ∧
      ong.rows.isEmpty = false ∧ nd.rows.isEmpty = false ∧
      update_commons (ong2Of ong el).cols el src nd (ong2Of ong el).rows
        (common_people (ong2Of ong el) nd) = some rows1 ∧
      out = ⟨(ong2Of ong el).cols, rows2Of (ong2Of ong el).cols nd el src rows1⟩ ∧
      s = ⟨(ong.rows.length : Int), (nd.rows.length : Int),
        ((common_people (ong2Of ong el) nd).length : Int),
        ((new_only_people ⟨(ong2Of ong el).cols, rows1⟩ nd).length : Int),
        (((rows2Of (ong2Of ong el).cols nd el src rows1).length : Int) -
          ((common_people (ong2Of ong el) nd).length : Int) -
          ((new_only_people ⟨(ong2Of ong el).cols, rows1⟩ nd).length : Int)),
        ((rows2Of (ong2Of ong el).cols nd el src rows1).length : Int)⟩ := by
  unfold merge_flow at h
  split at h
  · exact absurd h (by simp)
  · next hguard =>
    split at h
    · exact absurd h (by simp)
    · next el src hpick =>
      split at h
      · exact absurd h (by simp)
      · next hreq =>
        unfold merge_main at h
        simp only [] at h
        split at h
        · exact absurd h (by simp)
        · next rows1 hupd =>
          rw [Bool.not_eq_true, Bool.or_eq_false_iff] at hguard
          injection h with hL hS
          exact ⟨el, src, rows1, hpick, by simpa using hreq, hguard.1, hguard.2,
            hupd, hL.symm, hS.symm⟩

theorem requiredBase_not_dated : ∀ c ∈ requiredBase, isDated c = false := by decide

theorem ong1_contains_dated (ong : DF) (el : String) (hel : isDated el = true) :
    (addMissingCols ong requiredBase).cols.contains el = ong.cols.contains el := by
  obtain ⟨ext, h1, -, h3⟩ := addMissing_spec ong requiredBase
  rw [h1, contains_append_eq]
  have hext : ext.contains el = false := by
    rw [Bool.eq_false_iff]
    intro hc
    have hmem : el ∈ ext := by simpa using hc
    have := requiredBase_not_dated el ((h3 el hmem).1)
    rw [hel] at this
    exact Bool.true_eq_false ▸ this
  rw [hext, Bool.or_false]

theorem ong2_dated_filter (ong : DF) (el : String) (hel : isDated el = true) :
    (ong2Of ong el).cols.filter isDated =
      ong.cols.filter isDated ++ (if ong.cols.contains el then [] else [el]) := by
  obtain ⟨ext, h1, -, h3⟩ := addMissing_spec ong requiredBase
  have hextfil : ext.filter isDated = [] := by
    refine List.filter_eq_nil_iff.mpr (fun c hc => ?_)
    rw [requiredBase_not_dated c ((h3 c hc).1)]
    exact Bool.false_ne_true
  unfold ong2Of
  by_cases hc : (addMissingCols ong requiredBase).cols.contains el
  · rw [if_pos hc]
    rw [ong1_contains_dated ong el hel] at hc
    rw [if_pos hc, h1, List.filter_append, hextfil, List.append_nil]
  · rw [if_neg hc]
    rw [ong1_contains_dated ong el hel] at hc
    rw [if_neg hc]
    show ((addMissingCols ong requiredBase).cols ++ [el]).filter isDated = _
    rw [h1, List.filter_append, List.filter_append, hextfil, List.filter_cons_of_pos hel]
    simp

theorem pickEltunes_none (nd : DF) (d : String) (h : ∀ c ∈ nd.cols, isDated c = false) :
    pickEltunes nd d = none := by
  have hfil : nd.cols.filter isDated = [] :=
    List.filter_eq_nil_iff.mpr (fun c hc hd => by rw [h c hc] at hd; cases hd)
  have hlab : nd.cols.contains eltunesLabel = false := by
    rw [Bool.eq_false_iff]
    intro hc
    have hm : eltunesLabel ∈ nd.cols := by simpa using hc
    have hlf := h _ hm
    rw [show isDated eltunesLabel = true from by decide] at hlf
    cases hlf
  unfold pickEltunes
  rw [hfil, hlab]
  rfl

/- ==========================  claim theorems  ========================== -/

/-- C10: the diff can tag a row Modified solely because a non-key field is
missing on one side and present on the other, while the collapse test
still passes on every row for every field, so the emitted Modified row
shows no before/after column pair: on this input the single candidate pair
differs only in "Megjegyzés" (missing before, present after), is tagged
"Adatváltozás", and every non-key column is collapsed, with no suffixed
column left in the output. -/
theorem c10_modified_yet_collapsed :
    compare_dataframes
        ⟨["Név", "Születési dátum", "Megjegyzés"], [[some "A", some "2000-01-01", none]]⟩
        ⟨["Név", "Születési dátum", "Megjegyzés"], [[some "A", some "2000-01-01", some "x"]]⟩
        ["Név", "Születési dátum"] =
      ⟨["Név", "Születési dátum", "Megjegyzés", "Változás"],
        [[some "A", some "2000-01-01", some "x", some "Adatváltozás"]]⟩ ∧
    changed_pairs
        ⟨["Név", "Születési dátum", "Megjegyzés"], [[some "A", some "2000-01-01", none]]⟩
        ⟨["Név", "Születési dátum", "Megjegyzés"], [[some "A", some "2000-01-01", some "x"]]⟩
        ["Név", "Születési dátum"] =
      [([some "A", some "2000-01-01", none], [some "A", some "2000-01-01", some "x"])] ∧
    same_columns
        ⟨["Név", "Születési dátum", "Megjegyzés"], [[some "A", some "2000-01-01", none]]⟩
        ⟨["Név", "Születési dátum", "Megjegyzés"], [[some "A", some "2000-01-01", some "x"]]⟩
        ["Név", "Születési dátum"] = ["Megjegyzés"] := by
  decide

/-- C4 counterexample: merging an empty incoming snapshot is not a merge
that returns the ledger with zeroed statistics; the handler aborts at the
empty-file guard and produces no ledger and no statistics at all. -/
theorem c4_counterexample :
    ¬ ∃ stats : MergeStats,
      merge_flow ⟨["Név", "Születési dátum"], [[some "A", some "2000-01-01"]]⟩
          ⟨["Név", "Születési dátum", "Eltűnés dátuma 2026-10-12"], []⟩ "2026-10-12" =
        MergeResult.ok ⟨["Név", "Születési dátum"], [[some "A", some "2000-01-01"]]⟩ stats := by
  rintro ⟨s, h⟩
  rw [show merge_flow ⟨["Név", "Születési dátum"], [[some "A", some "2000-01-01"]]⟩
      ⟨["Név", "Születési dátum", "Eltűnés dátuma 2026-10-12"], []⟩ "2026-10-12" =
      MergeResult.err MergeError.emptyInput from rfl] at h
  exact MergeResult.noConfusion h

/-- C4 (amended): merging an empty incoming snapshot aborts at the
empty-file guard with a warning: no merged ledger and no statistics are
produced, so the caller keeps the prior ledger untouched. -/
theorem c4_empty_incoming_aborts (ong nd : DF) (d : String) (h : nd.rows = []) :
    merge_flow ong nd d = MergeResult.err MergeError.emptyInput := by
  unfold merge_flow
  rw [h]
  simp

theorem c4_empty_incoming_aborts_witness :
    (⟨["Név", "Születési dátum", "Eltűnés dátuma 2026-10-12"], []⟩ : DF).rows = [] ∧
    merge_flow ⟨["Név", "Születési dátum"], [[some "A", some "2000-01-01"]]⟩
        ⟨["Név", "Születési dátum", "Eltűnés dátuma 2026-10-12"], []⟩ "2026-10-12" =
      MergeResult.err MergeError.emptyInput :=
  ⟨rfl, c4_empty_incoming_aborts _ _ _ rfl⟩

/-- C8: when the incoming snapshot is missing a required key column (Név
or Születési dátum) or has no disappearance-date column at all, the merge
handler aborts with a validation error before touching the ledger: the
embedding returns an error and produces no output ledger, so nothing is
partially applied and the ledger is unchanged. -/
theorem c8_missing_required_aborts (ong nd : DF) (d : String)
    (ho : ong.rows ≠ []) (hn : nd.rows ≠ [])
    (hmiss : nd.cols.contains "Név" = false ∨ nd.cols.contains "Születési dátum" = false ∨
      ∀ c ∈ nd.cols, isDated c = false) :
    merge_flow ong nd d = MergeResult.err MergeError.missingEltunes ∨
      merge_flow ong nd d = MergeResult.err MergeError.missingRequired := by
  have hguard : (ong.rows.isEmpty || nd.rows.isEmpty) = false := by
    rw [Bool.or_eq_false_iff]
    constructor <;> simp [List.isEmpty_iff, ho, hn]
  unfold merge_flow
  rw [hguard, if_neg Bool.false_ne_true]
  cases hp : pickEltunes nd d with
  | none =>
    left
    rfl
  | some pr =>
    obtain ⟨el, src⟩ := pr
    have hall : (["Név", "Születési dátum", src].all (fun c => nd.cols.contains c)) = false := by
      rcases hmiss with hm | hm | hm
      · rw [List.all_cons, hm, Bool.false_and]
      · rw [List.all_cons, List.all_cons, hm, Bool.false_and, Bool.and_false]
      · exact absurd hp (by rw [pickEltunes_none nd d hm]; exact fun he => Option.noConfusion he)
    right
    show (if (! ["Név", "Születési dátum", src].all fun c => nd.cols.contains c) = true then
        MergeResult.err MergeError.missingRequired
      else merge_main ong nd el src) = MergeResult.err MergeError.missingRequired
    rw [hall]
    rfl

theorem c8_missing_required_aborts_witness :
    ((⟨["X"], [[some "v"]]⟩ : DF).rows ≠ [] ∧ (⟨["Név"], [[some "B"]]⟩ : DF).rows ≠ [] ∧
      ((⟨["Név"], [[some "B"]]⟩ : DF).cols.contains "Név" = false ∨
        (⟨["Név"], [[some "B"]]⟩ : DF).cols.contains "Születési dátum" = false ∨
        ∀ c ∈ (⟨["Név"], [[some "B"]]⟩ : DF).cols, isDated c = false)) ∧
    (merge_flow ⟨["X"], [[some "v"]]⟩ ⟨["Név"], [[some "B"]]⟩ "2026-10-12" =
        MergeResult.err MergeError.missingEltunes ∨
      merge_flow ⟨["X"], [[some "v"]]⟩ ⟨["Név"], [[some "B"]]⟩ "2026-10-12" =
        MergeResult.err MergeError.missingRequired) :=
  ⟨⟨by decide, by decide, by decide⟩,
    c8_missing_required_aborts ⟨["X"], [[some "v"]]⟩ ⟨["Név"], [[some "B"]]⟩ "2026-10-12"
      (by decide) (by decide) (by decide)⟩

/-- C1 counterexample: the merge does not name the dated observation field
from the current merge date.  Here the ledger tracks no dated column at
all (so the claim requires the name "Eltűnés dátuma 2026-10-12" on a
merge dated 2026-10-12), yet the output column is named after the incoming
file's dated column "Eltűnés dátuma 1999-01-01" and the template name is
absent. -/
theorem c1_counterexample :
    merge_flow ⟨["Név", "Születési dátum"], [[some "A", some "2000-01-01"]]⟩
        ⟨["Név", "Születési dátum", "Eltűnés dátuma 1999-01-01", "Anyja neve"],
          [[some "B", some "1990-02-02", some "1999-01-01", some "M"]]⟩ "2026-10-12" =
      MergeResult.ok
        ⟨["Név", "Születési dátum", "Nem", "Születési hely", "Születési ország",
            "Eltűnés dátuma 1999-01-01"],
          [[some "A", some "2000-01-01", none, none, none, none],
            [some "B", some "1990-02-02", none, none, none, some "1999-01-01"]]⟩
        ⟨1, 1, 0, 1, 1, 2⟩ ∧
    (∀ c ∈ (⟨["Név", "Születési dátum"], [[some "A", some "2000-01-01"]]⟩ : DF).cols,
      isDated c = false) ∧
    (["Név", "Születési dátum", "Nem", "Születési hely", "Születési ország",
        "Eltűnés dátuma 1999-01-01"] : List String).contains "Eltűnés dátuma 2026-10-12" =
      false := by
  refine ⟨by decide, by decide, by decide⟩

/-- C1 (amended): each merge adds at most one new dated observation field
to the ledger, but its name is not derived from the merge date: it is the
first incoming column containing the disappearance-date label (the
merge-date template branch is unreachable).  On success the output dated
columns are the ledger's dated columns plus that incoming column name,
added only when the ledger does not already have it. -/
theorem c1_dated_from_incoming (ong nd : DF) (d : String) (out : DF) (s : MergeStats)
    (h : merge_flow ong nd d = MergeResult.ok out s) :
    ∃ el t, nd.cols.filter isDated = el :: t ∧
      out.cols.filter isDated =
        ong.cols.filter isDated ++ (if ong.cols.contains el then [] else [el]) := by
  obtain ⟨el, src, rows1, hpick, hreq, ho, hn, hupd, hout, hstats⟩ :=
    merge_flow_ok_inv ong nd d out s h
  obtain ⟨hsrc, t, ht⟩ := pickEltunes_eq nd d el src hpick
  have hel : isDated el = true := pickEltunes_dated nd d el src hpick
  refine ⟨el, t, ht, ?_⟩
  rw [hout]
  exact ong2_dated_filter ong el hel

theorem c1_dated_from_incoming_witness :
    merge_flow ⟨["Név", "Születési dátum"], [[some "A", some "2000-01-01"]]⟩
        ⟨["Név", "Születési dátum", "Eltűnés dátuma 1999-01-01", "Anyja neve"],
          [[some "B", some "1990-02-02", some "1999-01-01", some "M"]]⟩ "2026-10-12" =
      MergeResult.ok
        ⟨["Név", "Születési dátum", "Nem", "Születési hely", "Születési ország",
            "Eltűnés dátuma 1999-01-01"],
          [[some "A", some "2000-01-01", none, none, none, none],
            [some "B", some "1990-02-02", none, none, none, some "1999-01-01"]]⟩
        ⟨1, 1, 0, 1, 1, 2⟩ ∧
    (∃ el t,
      (⟨["Név", "Születési dátum", "Eltűnés dátuma 1999-01-01", "Anyja neve"],
        [[some "B", some "1990-02-02", some "1999-01-01", some "M"]]⟩ : DF).cols.filter
          isDated = el :: t ∧
      (⟨["Név", "Születési dátum", "Nem", "Születési hely", "Születési ország",
          "Eltűnés dátuma 1999-01-01"],
        [[some "A", some "2000-01-01", none, none, none, none],
          [some "B", some "1990-02-02", none, none, none, some "1999-01-01"]]⟩ : DF).cols.filter
          isDated =
        (⟨["Név", "Születési dátum"], [[some "A", some "2000-01-01"]]⟩ : DF).cols.filter
          isDated ++
          (if (⟨["Név", "Születési dátum"],
              [[some "A", some "2000-01-01"]]⟩ : DF).cols.contains el then [] else [el])) :=
  ⟨by decide,
    c1_dated_from_incoming
      ⟨["Név", "Születési dátum"], [[some "A", some "2000-01-01"]]⟩
      ⟨["Név", "Születési dátum", "Eltűnés dátuma 1999-01-01", "Anyja neve"],
        [[some "B", some "1990-02-02", some "1999-01-01", some "M"]]⟩
      "2026-10-12"
      ⟨["Név", "Születési dátum", "Nem", "Születési hely", "Születési ország",
          "Eltűnés dátuma 1999-01-01"],
        [[some "A", some "2000-01-01", none, none, none, none],
          [some "B", some "1990-02-02", none, none, none, some "1999-01-01"]]⟩
      ⟨1, 1, 0, 1, 1, 2⟩ (by decide)⟩

/-- C2 counterexample: a field present in the incoming snapshot but absent
from the ledger is not added by the merge: the incoming column
"Anyja neve" holds data but does not appear in the output ledger, so the
merge loses a field that existed in one input. -/
theorem c2_counterexample :
    merge_flow ⟨["Név", "Születési dátum"], [[some "A", some "2000-01-01"]]⟩
        ⟨["Név", "Születési dátum", "Eltűnés dátuma 1999-01-01", "Anyja neve"],
          [[some "B", some "1990-02-02", some "1999-01-01", some "M"]]⟩ "2026-10-12" =
      MergeResult.ok
        ⟨["Név", "Születési dátum", "Nem", "Születési hely", "Születési ország",
            "Eltűnés dátuma 1999-01-01"],
          [[some "A", some "2000-01-01", none, none, none, none],
            [some "B", some "1990-02-02", none, none, none, some "1999-01-01"]]⟩
        ⟨1, 1, 0, 1, 1, 2⟩ ∧
    (⟨["Név", "Születési dátum", "Eltűnés dátuma 1999-01-01", "Anyja neve"],
      [[some "B", some "1990-02-02", some "1999-01-01", some "M"]]⟩ : DF).cols.contains
        "Anyja neve" = true ∧
    (["Név", "Születési dátum", "Nem", "Születési hely", "Születési ország",
        "Eltűnés dátuma 1999-01-01"] : List String).contains "Anyja neve" = false := by
  refine ⟨by decide, by decide, by decide⟩

/-- C2 (amended): the merge never narrows the ledger schema — the output
columns are the ledger columns followed by additions — but the only
additions are absent required base columns (Név, Nem, Születési hely,
Születési dátum, Születési ország) and the chosen dated column; fields
present only in the incoming snapshot outside this set are not added and
their values are dropped from the merged ledger. -/
theorem c2_ledger_columns_widen (ong nd : DF) (d : String) (out : DF) (s : MergeStats)
    (h : merge_flow ong nd d = MergeResult.ok out s) :
    ∃ el ext, pickEltunes nd d = some (el, el) ∧ out.cols = ong.cols ++ ext ∧
      ∀ c ∈ ext, (c ∈ requiredBase ∨ c = el) ∧ ong.cols.contains c = false := by
  obtain ⟨el, src, rows1, hpick, hreq, ho, hn, hupd, hout, hstats⟩ :=
    merge_flow_ok_inv ong nd d out s h
  obtain ⟨hsrc, t, ht⟩ := pickEltunes_eq nd d el src hpick
  obtain ⟨ext, h1, h2, h3⟩ := ong2_spec ong el
  rw [hsrc] at hpick
  refine ⟨el, ext, hpick, ?_, h3⟩
  rw [hout]
  exact h1

theorem c2_ledger_columns_widen_witness :
    merge_flow ⟨["Név", "Születési dátum"], [[some "A", some "2000-01-01"]]⟩
        ⟨["Név", "Születési dátum", "Eltűnés dátuma 1999-01-01", "Anyja neve"],
          [[some "B", some "1990-02-02", some "1999-01-01", some "M"]]⟩ "2026-10-12" =
      MergeResult.ok
        ⟨["Név", "Születési dátum", "Nem", "Születési hely", "Születési ország",
            "Eltűnés dátuma 1999-01-01"],
          [[some "A", some "2000-01-01", none, none, none, none],
            [some "B", some "1990-02-02", none, none, none, some "1999-01-01"]]⟩
        ⟨1, 1, 0, 1, 1, 2⟩ ∧
    (∃ el ext,
      pickEltunes
          ⟨["Név", "Születési dátum", "Eltűnés dátuma 1999-01-01", "Anyja neve"],
            [[some "B", some "1990-02-02", some "1999-01-01", some "M"]]⟩ "2026-10-12" =
        some (el, el) ∧
      (["Név", "Születési dátum", "Nem", "Születési hely", "Születési ország",
          "Eltűnés dátuma 1999-01-01"] : List String) =
        ["Név", "Születési dátum"] ++ ext ∧
      ∀ c ∈ ext, (c ∈ requiredBase ∨ c = el) ∧
        (["Név", "Születési dátum"] : List String).contains c = false) :=
  ⟨by decide,
    c2_ledger_columns_widen
      ⟨["Név", "Születési dátum"], [[some "A", some "2000-01-01"]]⟩
      ⟨["Név", "Születési dátum", "Eltűnés dátuma 1999-01-01", "Anyja neve"],
        [[some "B", some "1990-02-02", some "1999-01-01", some "M"]]⟩
      "2026-10-12"
      ⟨["Név", "Születési dátum", "Nem", "Születési hely", "Születési ország",
          "Eltűnés dátuma 1999-01-01"],
        [[some "A", some "2000-01-01", none, none, none, none],
          [some "B", some "1990-02-02", none, none, none, some "1999-01-01"]]⟩
      ⟨1, 1, 0, 1, 1, 2⟩ (by decide)⟩

theorem update_commons_some_length (cols : List String) (el src : String) (newdf : DF)
    (rows rows' : List Row) (ps : List (Option String × Option String))
    (h : update_commons cols el src newdf rows ps = some rows') :
    rows'.length = rows.length := by
  induction ps generalizing rows with
  | nil =>
    rw [update_commons] at h
    injection h with h
    rw [← h]
  | cons p ps ih =>
    rw [update_commons] at h
    cases hl : lookup_missing_date newdf src p with
    | none => rw [hl] at h; exact Option.noConfusion h
    | some d =>
      rw [hl] at h
      have := ih _ h
      rwa [List.length_map] at this

theorem new_only_nodup (ong' nd : DF) (hnd : (nd.rows.map (idOf nd.cols)).Nodup) :
    (new_only_people ong' nd).Nodup := by
  unfold new_only_people
  have hsub : (nd.rows.filter (fun rn =>
      !(ong'.rows.any (fun ro => idOf ong'.cols ro == idOf nd.cols rn)))).map (idOf nd.cols)
      |>.Sublist (nd.rows.map (idOf nd.cols)) :=
    List.Sublist.map _ (List.filter_sublist _)
  exact hnd.sublist hsub

theorem filter_beq_len {β : Type} [BEq β] [LawfulBEq β] (l : List β) (hnd : l.Nodup)
    (b : β) : (l.filter (fun x => x == b)).length = if b ∈ l then 1 else 0 := by
  induction l with
  | nil => simp
  | cons x xs ih =>
    rw [List.nodup_cons] at hnd
    by_cases hx : x = b
    · subst hx
      have hfil : xs.filter (fun y => y == x) = [] :=
        List.filter_eq_nil_iff.mpr (fun y hy hby => hnd.1 (eq_of_beq hby ▸ hy))
      rw [List.filter_cons_of_pos (by simp), hfil]
      simp
    · rw [List.filter_cons_of_neg (by simpa using hx), ih hnd.2]
      by_cases hb : b ∈ xs
      · rw [if_pos hb, if_pos (List.mem_cons_of_mem _ hb)]
      · rw [if_neg hb, if_neg (fun hmem => ?_)]
        rcases List.mem_cons.mp hmem with h | h
        · exact hx (Eq.symm h)
        · exact hb h

theorem mem_new_only_iff (ong' nd : DF) (rn : Row) (hrn : rn ∈ nd.rows) :
    idOf nd.cols rn ∈ new_only_people ong' nd ↔
      (!(ong'.rows.any (fun ro => idOf ong'.cols ro == idOf nd.cols rn))) = true := by
  constructor
  · intro hmem
    obtain ⟨rn', hrn', hid, hnone⟩ := (new_only_people_mem ong' nd _).mp hmem
    rw [Bool.not_eq_true', List.any_eq_false]
    intro ro hro
    have := hnone ro hro
    rw [← hid] at this
    simpa using this
  · intro hany
    refine (new_only_people_mem ong' nd _).mpr ⟨rn, hrn, rfl, fun ro hro => ?_⟩
    rw [Bool.not_eq_true', List.any_eq_false] at hany
    simpa using hany ro hro

theorem new_records_length (ongCols : List String) (ong' nd : DF) (el src : String)
    (hnd : (nd.rows.map (idOf nd.cols)).Nodup) :
    (new_records ongCols nd el src (new_only_people ong' nd)).length =
      (new_only_people ong' nd).length := by
  unfold new_records
  rw [List.length_map]
  have hnodup : (new_only_people ong' nd).Nodup := new_only_nodup ong' nd hnd
  rw [length_flatMap_indicator nd.rows _
    (fun rn => !(ong'.rows.any (fun ro => idOf ong'.cols ro == idOf nd.cols rn)))
    (fun rn hrn => ?_)]
  · unfold new_only_people
    rw [List.length_map]
  · rw [List.length_map, filter_beq_len (new_only_people ong' nd) hnodup (idOf nd.cols rn)]
    by_cases hmem : idOf nd.cols rn ∈ new_only_people ong' nd
    · rw [if_pos hmem, if_pos ((mem_new_only_iff ong' nd rn hrn).mp hmem)]
    · rw [if_neg hmem, if_neg (fun hb => hmem ((mem_new_only_iff ong' nd rn hrn).mpr hb))]

/-- C3: for every successful merge with keys unique within the ledger and
within the incoming snapshot, the reported statistics satisfy both
equations: final ledger size = prior ledger size + NewOnly count, and
Common count + OnlyInLedger count = prior ledger size. -/
theorem c3_merge_stats (ong nd : DF) (d : String) (out : DF) (s : MergeStats)
    (hndL : (ong.rows.map (idOf ong.cols)).Nodup)
    (hndI : (nd.rows.map (idOf nd.cols)).Nodup)
    (h : merge_flow ong nd d = MergeResult.ok out s) :
    s.final = s.prior + s.numNew ∧ s.numCommon + s.numOnlyInOngoing = s.prior := by
  obtain ⟨el, src, rows1, hpick, hreq, ho, hn, hupd, hout, hstats⟩ :=
    merge_flow_ok_inv ong nd d out s h
  have hlen1 : rows1.length = ong.rows.length := by
    have hu := update_commons_some_length _ _ _ _ _ _ _ hupd
    obtain ⟨ext, h1, h2, h3⟩ := ong2_spec ong el
    rw [h2, List.length_map] at hu
    exact hu
  have hr2 : (rows2Of (ong2Of ong el).cols nd el src rows1).length =
      rows1.length + (new_only_people ⟨(ong2Of ong el).cols, rows1⟩ nd).length := by
    unfold rows2Of
    simp only []
    split
    · next hempty =>
      rw [List.isEmpty_iff.mp hempty]
      simp
    · next =>
      rw [List.length_append, new_records_length _ _ _ _ _ hndI]
  subst hstats
  dsimp only
  constructor
  · omega
  · omega

theorem c3_merge_stats_witness :
    (((⟨["Név", "Születési dátum"],
        [[some "A", some "2000-01-01"], [some "C", some "1980-03-03"]]⟩ : DF).rows.map
          (idOf ["Név", "Születési dátum"])).Nodup ∧
      ((⟨["Név", "Születési dátum", "Eltűnés dátuma 2026-10-12"],
        [[some "A", some "2000-01-01", some "2026-10-12"],
          [some "B", some "1990-02-02", some "2026-10-12"]]⟩ : DF).rows.map
          (idOf ["Név", "Születési dátum", "Eltűnés dátuma 2026-10-12"])).Nodup ∧
      merge_flow
          ⟨["Név", "Születési dátum"],
            [[some "A", some "2000-01-01"], [some "C", some "1980-03-03"]]⟩
          ⟨["Név", "Születési dátum", "Eltűnés dátuma 2026-10-12"],
            [[some "A", some "2000-01-01", some "2026-10-12"],
              [some "B", some "1990-02-02", some "2026-10-12"]]⟩ "2026-10-12" =
        MergeResult.ok
          ⟨["Név", "Születési dátum", "Nem", "Születési hely", "Születési ország",
              "Eltűnés dátuma 2026-10-12"],
            [[some "A", some "2000-01-01", none, none, none, some "2026-10-12"],
              [some "C", some "1980-03-03", none, none, none, none],
              [some "B", some "1990-02-02", none, none, none, some "2026-10-12"]]⟩
          ⟨2, 2, 1, 1, 1, 3⟩) ∧
    ((3 : Int) = 2 + 1 ∧ (1 : Int) + 1 = 2) :=
  ⟨⟨by decide, by decide, by decide⟩,
    c3_merge_stats
      ⟨["Név", "Születési dátum"],
        [[some "A", some "2000-01-01"], [some "C", some "1980-03-03"]]⟩
      ⟨["Név", "Születési dátum", "Eltűnés dátuma 2026-10-12"],
        [[some "A", some "2000-01-01", some "2026-10-12"],
          [some "B", some "1990-02-02", some "2026-10-12"]]⟩ "2026-10-12"
      ⟨["Név", "Születési dátum", "Nem", "Születési hely", "Születési ország",
          "Eltűnés dátuma 2026-10-12"],
        [[some "A", some "2000-01-01", none, none, none, some "2026-10-12"],
          [some "C", some "1980-03-03", none, none, none, none],
          [some "B", some "1990-02-02", none, none, none, some "2026-10-12"]]⟩
      ⟨2, 2, 1, 1, 1, 3⟩ (by decide) (by decide) (by decide)⟩

theorem field_differs_eq (a b : Option String) :
    field_differs a b = (pd_ne a b && !(both_nan a b)) := by
  cases a <;> cases b <;> simp [field_differs, pd_ne, both_nan]

theorem flatMap_pair_length {α β : Type} (l : List α) (f g : α → β) :
    (l.flatMap (fun x => [f x, g x])).length = 2 * l.length := by
  induction l with
  | nil => rfl
  | cons x xs ih =>
    rw [List.flatMap_cons, List.length_append, ih]
    simp
    omega

/-- C6: a key-matched candidate pair is emitted as Modified exactly when
some non-key field of the (shared) schema differs under the missing-value
rule — both missing is equal, missing against present differs, two present
values compare by equality — and pairs with no differing field produce no
output row: the output row count is new + deleted + changed, and every row
past the new and deleted blocks is tagged "Adatváltozás". -/
theorem c6_modified_iff_field_differs (old new : DF) (keys : List String)
    (hschema : ∀ c, c ∈ new.cols ↔ c ∈ old.cols)
    (p : Row × Row) (hp : p ∈ candidate_pairs old new keys) :
    (p ∈ changed_pairs old new keys ↔
      ∃ c, (c ∈ old.cols ∨ c ∈ new.cols) ∧ c ∉ keys ∧
        field_differs (getVal old.cols p.1 c) (getVal new.cols p.2 c) = true) ∧
    (compare_dataframes old new keys).rows.length =
      (new_rows old new keys).length + (deleted_rows old new keys).length +
        (changed_pairs old new keys).length ∧
    (∀ i, (new_rows old new keys).length + (deleted_rows old new keys).length ≤ i →
      kind_at (new_rows old new keys).length (deleted_rows old new keys).length i =
        "Adatváltozás") := by
  refine ⟨?_, ?_, ?_⟩
  · unfold changed_pairs
    rw [List.mem_filter]
    constructor
    · rintro ⟨-, hrc⟩
      unfold row_changed at hrc
      obtain ⟨c, hc, hb⟩ := List.any_eq_true.mp hrc
      obtain ⟨hcm, hck⟩ := List.mem_filter.mp hc
      refine ⟨c, Or.inl hcm, by simpa using hck, ?_⟩
      rw [field_differs_eq]
      exact hb
    · rintro ⟨c, hcm, hck, hdiff⟩
      refine ⟨hp, ?_⟩
      unfold row_changed
      rw [List.any_eq_true]
      have hcm' : c ∈ old.cols := by
        rcases hcm with h | h
        · exact h
        · exact (hschema c).mp h
      refine ⟨c, List.mem_filter.mpr ⟨hcm', by simpa using hck⟩, ?_⟩
      rw [field_differs_eq] at hdiff
      exact hdiff
  · unfold compare_dataframes
    simp only [List.length_map, List.enum_length]
    unfold changes_list
    simp [List.length_append]
    omega
  · intro i hi
    unfold kind_at
    rw [if_neg (by omega), if_neg (by omega)]

theorem c6_modified_iff_field_differs_witness :
    ((∀ c, c ∈ (⟨["Név", "Születési dátum", "Nem"],
        [[some "A", some "2000-01-01", some "female"]]⟩ : DF).cols ↔
      c ∈ (⟨["Név", "Születési dátum", "Nem"],
        [[some "A", some "2000-01-01", some "male"]]⟩ : DF).cols) ∧
      ([some "A", some "2000-01-01", some "male"], [some "A", some "2000-01-01", some "female"]) ∈
        candidate_pairs
          ⟨["Név", "Születési dátum", "Nem"], [[some "A", some "2000-01-01", some "male"]]⟩
          ⟨["Név", "Születési dátum", "Nem"], [[some "A", some "2000-01-01", some "female"]]⟩
          ["Név", "Születési dátum"]) ∧
    ((([some "A", some "2000-01-01", some "male"],
        [some "A", some "2000-01-01", some "female"]) ∈
      changed_pairs
        ⟨["Név", "Születési dátum", "Nem"], [[some "A", some "2000-01-01", some "male"]]⟩
        ⟨["Név", "Születési dátum", "Nem"], [[some "A", some "2000-01-01", some "female"]]⟩
        ["Név", "Születési dátum"] ↔
      ∃ c, (c ∈ (⟨["Név", "Születési dátum", "Nem"],
            [[some "A", some "2000-01-01", some "male"]]⟩ : DF).cols ∨
          c ∈ (⟨["Név", "Születési dátum", "Nem"],
            [[some "A", some "2000-01-01", some "female"]]⟩ : DF).cols) ∧
        c ∉ ["Név", "Születési dátum"] ∧
        field_differs
          (getVal ["Név", "Születési dátum", "Nem"]
            [some "A", some "2000-01-01", some "male"] c)
          (getVal ["Név", "Születési dátum", "Nem"]
            [some "A", some "2000-01-01", some "female"] c) = true) ∧
    (compare_dataframes
        ⟨["Név", "Születési dátum", "Nem"], [[some "A", some "2000-01-01", some "male"]]⟩
        ⟨["Név", "Születési dátum", "Nem"], [[some "A", some "2000-01-01", some "female"]]⟩
        ["Név", "Születési dátum"]).rows.length =
      (new_rows
        ⟨["Név", "Születési dátum", "Nem"], [[some "A", some "2000-01-01", some "male"]]⟩
        ⟨["Név", "Születési dátum", "Nem"], [[some "A", some "2000-01-01", some "female"]]⟩
        ["Név", "Születési dátum"]).length +
      (deleted_rows
        ⟨["Név", "Születési dátum", "Nem"], [[some "A", some "2000-01-01", some "male"]]⟩
        ⟨["Név", "Születési dátum", "Nem"], [[some "A", some "2000-01-01", some "female"]]⟩
        ["Név", "Születési dátum"]).length +
      (changed_pairs
        ⟨["Név", "Születési dátum", "Nem"], [[some "A", some "2000-01-01", some "male"]]⟩
        ⟨["Név", "Születési dátum", "Nem"], [[some "A", some "2000-01-01", some "female"]]⟩
        ["Név", "Születési dátum"]).length ∧
    (∀ i, (new_rows
        ⟨["Név", "Születési dátum", "Nem"], [[some "A", some "2000-01-01", some "male"]]⟩
        ⟨["Név", "Születési dátum", "Nem"], [[some "A", some "2000-01-01", some "female"]]⟩
        ["Név", "Születési dátum"]).length +
      (deleted_rows
        ⟨["Név", "Születési dátum", "Nem"], [[some "A", some "2000-01-01", some "male"]]⟩
        ⟨["Név", "Születési dátum", "Nem"], [[some "A", some "2000-01-01", some "female"]]⟩
        ["Név", "Születési dátum"]).length ≤ i →
      kind_at (new_rows
          ⟨["Név", "Születési dátum", "Nem"], [[some "A", some "2000-01-01", some "male"]]⟩
          ⟨["Név", "Születési dátum", "Nem"], [[some "A", some "2000-01-01", some "female"]]⟩
          ["Név", "Születési dátum"]).length
        (deleted_rows
          ⟨["Név", "Születési dátum", "Nem"], [[some "A", some "2000-01-01", some "male"]]⟩
          ⟨["Név", "Születési dátum", "Nem"], [[some "A", some "2000-01-01", some "female"]]⟩
          ["Név", "Születési dátum"]).length i = "Adatváltozás")) :=
  ⟨⟨fun c => Iff.rfl, by decide⟩,
    c6_modified_iff_field_differs
      ⟨["Név", "Születési dátum", "Nem"], [[some "A", some "2000-01-01", some "male"]]⟩
      ⟨["Név", "Születési dátum", "Nem"], [[some "A", some "2000-01-01", some "female"]]⟩
      ["Név", "Születési dátum"] (fun c => Iff.rfl)
      ([some "A", some "2000-01-01", some "male"], [some "A", some "2000-01-01", some "female"])
      (by decide)⟩

/-- C5: a non-key field is collapsed into a single column exactly when, in
every row of the entire changes frame, its before and after values are
equal as present values or at least one side is missing; and in each row
the collapsed column holds combine_first of the two sides — the before
value when present, otherwise the after value — which therefore equals the
unique non-missing value of that row, since both-present sides of a
collapsed field are equal. -/
theorem c5_collapse_sound (old new : DF) (keys : List String) (c : String)
    (hnd : (out_cols old new keys).Nodup) :
    (c ∈ same_columns old new keys ↔
      c ∈ old.cols ∧ c ∉ keys ∧
        ∀ cp ∈ changes_list old new keys,
          (pd_eq (bval old cp c) (aval new cp c) = true ∨
            bval old cp c = none ∨ aval new cp c = none)) ∧
    (c ∈ same_columns old new keys →
      ∀ cp ∈ changes_list old new keys, ∀ kind : String,
        getVal (out_cols old new keys) (out_row old new keys cp kind) c =
          combine_first (bval old cp c) (aval new cp c) ∧
        ∀ v w, bval old cp c = some v → aval new cp c = some w → v = w) := by
  have hmem_iff : c ∈ same_columns old new keys ↔
      c ∈ old.cols ∧ c ∉ keys ∧
        ∀ cp ∈ changes_list old new keys,
          (pd_eq (bval old cp c) (aval new cp c) = true ∨
            bval old cp c = none ∨ aval new cp c = none) := by
    unfold same_columns nonkey_cols
    rw [List.mem_filter, List.mem_filter, List.all_eq_true]
    constructor
    · rintro ⟨⟨hco, hck⟩, hall⟩
      refine ⟨hco, by simpa using hck, fun cp hcp => ?_⟩
      have := hall cp hcp
      unfold collapse_ok at this
      rcases Bool.or_eq_true_iff.mp this with h | h
      · rcases Bool.or_eq_true_iff.mp h with h' | h'
        · exact Or.inl h'
        · exact Or.inr (Or.inl (Option.isNone_iff_eq_none.mp h'))
      · exact Or.inr (Or.inr (Option.isNone_iff_eq_none.mp h))
    · rintro ⟨hco, hck, hall⟩
      refine ⟨⟨hco, by simpa using hck⟩, fun cp hcp => ?_⟩
      unfold collapse_ok
      rcases hall cp hcp with h | h | h
      · rw [h]
        rfl
      · rw [h]
        simp
      · rw [h]
        simp
  refine ⟨hmem_iff, fun hc cp hcp kind => ?_⟩
  have huniq : ∀ v w, bval old cp c = some v → aval new cp c = some w → v = w := by
    intro v w hv hw
    rcases (hmem_iff.mp hc).2.2 cp hcp with h | h | h
    · obtain ⟨x, hx1, hx2⟩ := (pd_eq_true_iff _ _).mp h
      rw [hv] at hx1
      rw [hw] at hx2
      injection hx1 with e1
      injection hx2 with e2
      rw [e1, e2]
    · rw [hv] at h
      exact Option.noConfusion h
    · rw [hw] at h
      exact Option.noConfusion h
  refine ⟨?_, huniq⟩
  unfold out_cols out_row
  have hkeys_len : keys.length = (keys.map (key_val old new cp)).length :=
    (List.length_map keys _).symm
  have hsurv_len :
      (((nonkey_cols old keys).filter
        (fun c => !((same_columns old new keys).contains c))).flatMap
          (fun c => [c ++ " (előző)", c ++ " (új)"])).length =
      (((nonkey_cols old keys).filter
        (fun c => !((same_columns old new keys).contains c))).flatMap
          (fun c => [bval old cp c, aval new cp c])).length := by
    rw [flatMap_pair_length, flatMap_pair_length]
  have hnd1 := hnd
  unfold out_cols at hnd1
  rw [List.append_assoc, List.append_assoc] at hnd1
  have hdisj : c ∉ keys ++
      ((nonkey_cols old keys).filter
        (fun c => !((same_columns old new keys).contains c))).flatMap
          (fun c => [c ++ " (előző)", c ++ " (új)"]) := by
    rw [← List.append_assoc] at hnd1
    rw [List.nodup_append] at hnd1
    intro hmem
    exact hnd1.2.2 hmem (List.mem_append.mpr (Or.inl hc))
  have hcontains_false : (keys ++
      ((nonkey_cols old keys).filter
        (fun c => !((same_columns old new keys).contains c))).flatMap
          (fun c => [c ++ " (előző)", c ++ " (új)"])).contains c = false := by
    rw [Bool.eq_false_iff]
    intro hcon
    exact hdisj (by simpa using hcon)
  rw [List.append_assoc, List.append_assoc, List.append_assoc, List.append_assoc,
    getVal_append _ _ _ _ _ hkeys_len]
  rw [show (keys.contains c) = false from by
    rw [Bool.eq_false_iff]
    intro hcon
    exact hdisj (List.mem_append.mpr (Or.inl (by simpa using hcon)))]
  rw [if_neg Bool.false_ne_true, getVal_append _ _ _ _ _ (by
    rw [flatMap_pair_length, flatMap_pair_length])]
  rw [show (((nonkey_cols old keys).filter
      (fun c => !((same_columns old new keys).contains c))).flatMap
        (fun c => [c ++ " (előző)", c ++ " (új)"])).contains c = false from by
    rw [Bool.eq_false_iff]
    intro hcon
    exact hdisj (List.mem_append.mpr (Or.inr (by simpa using hcon)))]
  rw [if_neg Bool.false_ne_true, getVal_append _ _ _ _ _ (List.length_map _ _).symm,
    getVal_map_self]
  rw [show (same_columns old new keys).contains c = true from by simpa using hc]
  rw [if_pos rfl]
  rfl

theorem c5_collapse_sound_witness :
    (out_cols ⟨["K", "F"], [[some "a", none]]⟩ ⟨["K", "F"], [[some "a", some "x"]]⟩
      ["K"]).Nodup ∧
    (("F" ∈ same_columns ⟨["K", "F"], [[some "a", none]]⟩
        ⟨["K", "F"], [[some "a", some "x"]]⟩ ["K"] ↔
      "F" ∈ (⟨["K", "F"], [[some "a", none]]⟩ : DF).cols ∧ "F" ∉ ["K"] ∧
        ∀ cp ∈ changes_list ⟨["K", "F"], [[some "a", none]]⟩
            ⟨["K", "F"], [[some "a", some "x"]]⟩ ["K"],
          (pd_eq (bval ⟨["K", "F"], [[some "a", none]]⟩ cp "F")
              (aval ⟨["K", "F"], [[some "a", some "x"]]⟩ cp "F") = true ∨
            bval ⟨["K", "F"], [[some "a", none]]⟩ cp "F" = none ∨
            aval ⟨["K", "F"], [[some "a", some "x"]]⟩ cp "F" = none)) ∧
    ("F" ∈ same_columns ⟨["K", "F"], [[some "a", none]]⟩
        ⟨["K", "F"], [[some "a", some "x"]]⟩ ["K"] →
      ∀ cp ∈ changes_list ⟨["K", "F"], [[some "a", none]]⟩
          ⟨["K", "F"], [[some "a", some "x"]]⟩ ["K"], ∀ kind : String,
        getVal (out_cols ⟨["K", "F"], [[some "a", none]]⟩
            ⟨["K", "F"], [[some "a", some "x"]]⟩ ["K"])
          (out_row ⟨["K", "F"], [[some "a", none]]⟩
            ⟨["K", "F"], [[some "a", some "x"]]⟩ ["K"] cp kind) "F" =
          combine_first (bval ⟨["K", "F"], [[some "a", none]]⟩ cp "F")
            (aval ⟨["K", "F"], [[some "a", some "x"]]⟩ cp "F") ∧
        ∀ v w, bval ⟨["K", "F"], [[some "a", none]]⟩ cp "F" = some v →
          aval ⟨["K", "F"], [[some "a", some "x"]]⟩ cp "F" = some w → v = w)) :=
  ⟨by decide,
    c5_collapse_sound ⟨["K", "F"], [[some "a", none]]⟩ ⟨["K", "F"], [[some "a", some "x"]]⟩
      ["K"] "F" (by decide)⟩

theorem isDated_ne_id (el : String) (h : isDated el = true) :
    "Név" ≠ el ∧ "Születési dátum" ≠ el := by
  constructor <;> intro he <;> rw [← he] at h <;> exact absurd h (by decide)

theorem commons_lookup_isSome (ong' nd : DF) (src : String)
    (hpres : ∀ rn ∈ nd.rows,
      (idOf nd.cols rn).1.isSome = true ∧ (idOf nd.cols rn).2.isSome = true)
    (p : Option String × Option String) (hp : p ∈ common_people ong' nd) :
    (lookup_missing_date nd src p).isSome = true := by
  obtain ⟨ro, hro, hpeq, rn, hrn, hid⟩ := (common_people_mem ong' nd p).mp hp
  have hpid : p = idOf nd.cols rn := by rw [hpeq, hid]
  have hmask : maskMatch nd.cols rn p = true :=
    maskMatch_of_idOf nd.cols rn p hpid.symm (hpid ▸ (hpres rn hrn).1)
      (hpid ▸ (hpres rn hrn).2)
  unfold lookup_missing_date
  rw [show (nd.rows.find? (fun rn => maskMatch nd.cols rn p)).map
      (fun rn => getVal nd.cols rn src) =
      (fun rn => getVal nd.cols rn src) <$> nd.rows.find? (fun rn => maskMatch nd.cols rn p)
    from rfl, Option.isSome_map]
  exact List.find?_isSome.mpr ⟨rn, hrn, hmask⟩

theorem lookup_at_id (nd : DF) (src : String) (rn : Row) (hrn : rn ∈ nd.rows)
    (hndI : (nd.rows.map (idOf nd.cols)).Nodup)
    (h1 : (idOf nd.cols rn).1.isSome = true) (h2 : (idOf nd.cols rn).2.isSome = true) :
    lookup_missing_date nd src (idOf nd.cols rn) = some (getVal nd.cols rn src) := by
  unfold lookup_missing_date
  cases hf : nd.rows.find? (fun r => maskMatch nd.cols r (idOf nd.cols rn)) with
  | none =>
    rw [List.find?_eq_none] at hf
    exact absurd (maskMatch_of_idOf nd.cols rn (idOf nd.cols rn) rfl h1 h2) (hf rn hrn)
  | some rn' =>
    have hmem := List.mem_of_find?_eq_some hf
    have hmask := List.find?_some hf
    have hid := (maskMatch_idOf_eq nd.cols rn' (idOf nd.cols rn) hmask).1
    have : rn' = rn := map_nodup_inj nd.rows (idOf nd.cols) hndI hmem hrn hid
    rw [this]
    rfl

theorem merge_rows1_eq (ong nd : DF) (el src : String) (rows1 : List Row)
    (hpres : ∀ rn ∈ nd.rows,
      (idOf nd.cols rn).1.isSome = true ∧ (idOf nd.cols rn).2.isSome = true)
    (hupd : update_commons (ong2Of ong el).cols el src nd (ong2Of ong el).rows
      (common_people (ong2Of ong el) nd) = some rows1) :
    rows1 = (ong2Of ong el).rows.map
      (chainUpd (ong2Of ong el).cols el src nd (common_people (ong2Of ong el) nd)) := by
  rw [update_commons_eq _ _ _ _ _ _
    (fun p hp => commons_lookup_isSome (ong2Of ong el) nd src hpres p hp)] at hupd
  injection hupd with hupd
  rw [hupd]

/-- C9: for every ledger row, a successful merge overwrites only the
chosen dated column, and only for rows whose key appears in the incoming
snapshot: such a row gets the matching incoming record's observation value
in the dated column and keeps every other field unchanged, while a ledger
row whose key does not appear in the incoming data keeps all of its fields
unchanged, the dated column included. -/
theorem c9_common_overwrite_frame (ong nd : DF) (d : String) (out : DF) (s : MergeStats)
    (hwf : WF ong)
    (hndI : (nd.rows.map (idOf nd.cols)).Nodup)
    (hpres : ∀ rn ∈ nd.rows,
      (idOf nd.cols rn).1.isSome = true ∧ (idOf nd.cols rn).2.isSome = true)
    (h : merge_flow ong nd d = MergeResult.ok out s) :
    ∃ el src, pickEltunes nd d = some (el, src) ∧
      ∀ (i : Nat) (ro : Row), ong.rows[i]? = some ro →
        ∃ r', out.rows[i]? = some r' ∧
          (∀ c, c ≠ el → getVal out.cols r' c = getVal ong.cols ro c) ∧
          (∀ rn ∈ nd.rows, idOf nd.cols rn = idOf ong.cols ro →
            getVal out.cols r' el = getVal nd.cols rn src) ∧
          ((∀ rn ∈ nd.rows, idOf nd.cols rn ≠ idOf ong.cols ro) →
            getVal out.cols r' el = getVal ong.cols ro el) := by
  obtain ⟨el, src, rows1, hpick, hreq, ho, hn, hupd, hout, hstats⟩ :=
    merge_flow_ok_inv ong nd d out s h
  refine ⟨el, src, hpick, ?_⟩
  intro i ro hro
  obtain ⟨ext, hcols, hrows, hext⟩ := ong2_spec ong el
  have hel : isDated el = true := pickEltunes_dated nd d el src hpick
  obtain ⟨hne1, hne2⟩ := isDated_ne_id el hel
  have hromem : ro ∈ ong.rows := by
    obtain ⟨hlt, he⟩ := List.getElem?_eq_some_iff.mp hro
    exact he ▸ List.getElem_mem hlt
  have hro_len : ro.length = ong.cols.length := hwf ro hromem
  have hw_len : (ro ++ List.replicate ext.length (none : Option String)).length =
      (ong2Of ong el).cols.length := by
    rw [hcols, List.length_append, List.length_append, List.length_replicate, hro_len]
  have hwid : ∀ c, getVal (ong2Of ong el).cols
      (ro ++ List.replicate ext.length (none : Option String)) c = getVal ong.cols ro c :=
    fun c => by rw [hcols]; exact widen_getVal ong.cols ext ro ext.length c hro_len.symm
  have hidw : idOf (ong2Of ong el).cols
      (ro ++ List.replicate ext.length (none : Option String)) = idOf ong.cols ro := by
    unfold idOf
    rw [hwid, hwid]
  have hrows1 := merge_rows1_eq ong nd el src rows1 hpres hupd
  have hrows1i : rows1[i]? =
      some (chainUpd (ong2Of ong el).cols el src nd (common_people (ong2Of ong el) nd)
        (ro ++ List.replicate ext.length (none : Option String))) := by
    rw [hrows1, List.getElem?_map, hrows, List.getElem?_map, hro]
    rfl
  have hlen_rows1 : i < rows1.length := by
    rw [hrows1, List.length_map, hrows, List.length_map]
    exact (List.getElem?_eq_some_iff.mp hro).1
  have houtrows : out.rows[i]? = rows1[i]? := by
    rw [hout]
    show (rows2Of (ong2Of ong el).cols nd el src rows1)[i]? = _
    unfold rows2Of
    simp only []
    split
    · rfl
    · rw [List.getElem?_append, if_pos hlen_rows1]
  refine ⟨chainUpd (ong2Of ong el).cols el src nd (common_people (ong2Of ong el) nd)
    (ro ++ List.replicate ext.length (none : Option String)),
    houtrows.trans hrows1i, ?_, ?_, ?_⟩
  · intro c hc
    rw [hout]
    exact (chain_frame _ el src nd _ _ c hc).trans (hwid c)
  · intro rn hrn hid
    have hpmem : idOf ong.cols ro ∈ common_people (ong2Of ong el) nd := by
      refine (common_people_mem _ _ _).mpr
        ⟨ro ++ List.replicate ext.length (none : Option String), ?_, hidw.symm, rn, hrn, ?_⟩
      · rw [hrows]
        exact List.mem_map_of_mem _ hromem
      · rw [hidw, hid]
    have hpres_rn := hpres rn hrn
    have hp1 : (idOf ong.cols ro).1.isSome = true := by rw [← hid]; exact hpres_rn.1
    have hp2 : (idOf ong.cols ro).2.isSome = true := by rw [← hid]; exact hpres_rn.2
    have hmaskw : maskMatch (ong2Of ong el).cols
        (ro ++ List.replicate ext.length (none : Option String)) (idOf ong.cols ro) = true :=
      maskMatch_of_idOf _ _ _ hidw hp1 hp2
    have hall : ∀ q ∈ common_people (ong2Of ong el) nd,
        maskMatch (ong2Of ong el).cols
          (ro ++ List.replicate ext.length (none : Option String)) q = true →
        lookup_missing_date nd src q = some (getVal nd.cols rn src) := by
      intro q hq hmq
      have hqe : q = idOf ong.cols ro := by
        have hqw := (maskMatch_idOf_eq _ _ q hmq).1
        rw [← hqw, hidw]
      rw [hqe, ← hid]
      exact lookup_at_id nd src rn hrn hndI hpres_rn.1 hpres_rn.2
    rw [hout]
    exact chain_hit _ el src nd _ _ (getVal nd.cols rn src) hw_len
      (ong2_contains_el ong el) hne1 hne2 ⟨idOf ong.cols ro, hpmem, hmaskw⟩ hall
  · intro hnone
    have hfalse : ∀ q ∈ common_people (ong2Of ong el) nd,
        maskMatch (ong2Of ong el).cols
          (ro ++ List.replicate ext.length (none : Option String)) q = true → False := by
      intro q hq hmq
      obtain ⟨ro'', hro'', hqe, rn'', hrn'', hid''⟩ := (common_people_mem _ _ _).mp hq
      have hqw := (maskMatch_idOf_eq _ _ q hmq).1
      refine hnone rn'' hrn'' ?_
      rw [hid'', ← hqe, ← hqw, hidw]
    have hchain : chainUpd (ong2Of ong el).cols el src nd
        (common_people (ong2Of ong el) nd)
        (ro ++ List.replicate ext.length (none : Option String)) =
        ro ++ List.replicate ext.length (none : Option String) :=
      chain_id _ el src nd _ _ (fun q hq hm => (hfalse q hq hm).elim)
    rw [hout]
    show getVal (ong2Of ong el).cols _ el = _
    rw [hchain]
    exact hwid el

theorem c9_common_overwrite_frame_witness :
    (WF ⟨["Név", "Születési dátum"],
        [[some "A", some "2000-01-01"], [some "C", some "1980-03-03"]]⟩ ∧
      ((⟨["Név", "Születési dátum", "Eltűnés dátuma 2026-10-12"],
        [[some "A", some "2000-01-01", some "2026-10-12"],
          [some "B", some "1990-02-02", some "2026-10-12"]]⟩ : DF).rows.map
          (idOf ["Név", "Születési dátum", "Eltűnés dátuma 2026-10-12"])).Nodup ∧
      (∀ rn ∈ (⟨["Név", "Születési dátum", "Eltűnés dátuma 2026-10-12"],
        [[some "A", some "2000-01-01", some "2026-10-12"],
          [some "B", some "1990-02-02", some "2026-10-12"]]⟩ : DF).rows,
        (idOf ["Név", "Születési dátum", "Eltűnés dátuma 2026-10-12"] rn).1.isSome = true ∧
        (idOf ["Név", "Születési dátum", "Eltűnés dátuma 2026-10-12"] rn).2.isSome = true)) ∧
    (∃ el src,
      pickEltunes
          ⟨["Név", "Születési dátum", "Eltűnés dátuma 2026-10-12"],
            [[some "A", some "2000-01-01", some "2026-10-12"],
              [some "B", some "1990-02-02", some "2026-10-12"]]⟩ "2026-10-12" =
        some (el, src) ∧
      ∀ (i : Nat) (ro : Row),
        (⟨["Név", "Születési dátum"],
          [[some "A", some "2000-01-01"], [some "C", some "1980-03-03"]]⟩ : DF).rows[i]? =
          some ro →
        ∃ r',
          (⟨["Név", "Születési dátum", "Nem", "Születési hely", "Születési ország",
              "Eltűnés dátuma 2026-10-12"],
            [[some "A", some "2000-01-01", none, none, none, some "2026-10-12"],
              [some "C", some "1980-03-03", none, none, none, none],
              [some "B", some "1990-02-02", none, none, none, some "2026-10-12"]]⟩ :
                DF).rows[i]? = some r' ∧
          (∀ c, c ≠ el →
            getVal ["Név", "Születési dátum", "Nem", "Születési hely", "Születési ország",
              "Eltűnés dátuma 2026-10-12"] r' c = getVal ["Név", "Születési dátum"] ro c) ∧
          (∀ rn ∈ (⟨["Név", "Születési dátum", "Eltűnés dátuma 2026-10-12"],
              [[some "A", some "2000-01-01", some "2026-10-12"],
                [some "B", some "1990-02-02", some "2026-10-12"]]⟩ : DF).rows,
            idOf ["Név", "Születési dátum", "Eltűnés dátuma 2026-10-12"] rn =
              idOf ["Név", "Születési dátum"] ro →
            getVal ["Név", "Születési dátum", "Nem", "Születési hely", "Születési ország",
              "Eltűnés dátuma 2026-10-12"] r' el =
              getVal ["Név", "Születési dátum", "Eltűnés dátuma 2026-10-12"] rn src) ∧
          ((∀ rn ∈ (⟨["Név", "Születési dátum", "Eltűnés dátuma 2026-10-12"],
              [[some "A", some "2000-01-01", some "2026-10-12"],
                [some "B", some "1990-02-02", some "2026-10-12"]]⟩ : DF).rows,
            idOf ["Név", "Születési dátum", "Eltűnés dátuma 2026-10-12"] rn ≠
              idOf ["Név", "Születési dátum"] ro) →
            getVal ["Név", "Születési dátum", "Nem", "Születési hely", "Születési ország",
              "Eltűnés dátuma 2026-10-12"] r' el = getVal ["Név", "Születési dátum"] ro el)) :=
  ⟨⟨by decide, by decide, by decide⟩,
    c9_common_overwrite_frame
      ⟨["Név", "Születési dátum"],
        [[some "A", some "2000-01-01"], [some "C", some "1980-03-03"]]⟩
      ⟨["Név", "Születési dátum", "Eltűnés dátuma 2026-10-12"],
        [[some "A", some "2000-01-01", some "2026-10-12"],
          [some "B", some "1990-02-02", some "2026-10-12"]]⟩ "2026-10-12"
      ⟨["Név", "Születési dátum", "Nem", "Születési hely", "Születési ország",
          "Eltűnés dátuma 2026-10-12"],
        [[some "A", some "2000-01-01", none, none, none, some "2026-10-12"],
          [some "C", some "1980-03-03", none, none, none, none],
          [some "B", some "1990-02-02", none, none, none, some "2026-10-12"]]⟩
      ⟨2, 2, 1, 1, 1, 3⟩ (by decide) (by decide) (by decide) (by decide)⟩

/- ================  helper lemmas : second-pass idempotence  ================ -/

theorem addMissing_contains (df : DF) (cs : List String) (c : String) (hc : c ∈ cs) :
    (addMissingCols df cs).cols.contains c = true := by
  induction cs generalizing df with
  | nil => simp at hc
  | cons x xs ih =>
    have hstep : addMissingCols df (x :: xs) =
        addMissingCols (if df.cols.contains x then df else addCol df x) xs := by
      simp only [addMissingCols, List.foldl_cons]
    rw [hstep]
    rcases List.mem_cons.mp hc with he | he
    · subst he
      obtain ⟨ext, h1, -, -⟩ := addMissing_spec (if df.cols.contains c then df else addCol df c) xs
      rw [h1, contains_append_eq]
      by_cases hd : df.cols.contains c
      · rw [if_pos hd]
        simp only [hd, Bool.true_or]
      · rw [if_neg hd]
        have : (addCol df c).cols.contains c = true := by
          simp [addCol, contains_append_eq]
        simp only [this, Bool.true_or]
    · exact ih _ he

theorem addMissing_id (df : DF) (cs : List String)
    (h : ∀ c ∈ cs, df.cols.contains c = true) : addMissingCols df cs = df := by
  induction cs with
  | nil => rfl
  | cons x xs ih =>
    have hstep : addMissingCols df (x :: xs) = addMissingCols df xs := by
      simp only [addMissingCols, List.foldl_cons]
      rw [if_pos (h x (List.mem_cons_self x xs))]
    rw [hstep]
    exact ih (fun c hc => h c (List.mem_cons_of_mem x hc))

theorem ong2_of_self (df : DF) (el : String)
    (hbase : ∀ c ∈ requiredBase, df.cols.contains c = true)
    (hel : df.cols.contains el = true) : ong2Of df el = df := by
  unfold ong2Of
  rw [addMissing_id df requiredBase hbase, if_pos hel]

theorem ong2_contains_base (ong : DF) (el : String) (c : String) (hc : c ∈ requiredBase) :
    (ong2Of ong el).cols.contains c = true := by
  unfold ong2Of
  simp only []
  split
  · exact addMissing_contains ong requiredBase c hc
  · show ((addMissingCols ong requiredBase).cols ++ [el]).contains c = true
    rw [contains_append_eq, addMissing_contains ong requiredBase c hc, Bool.true_or]

theorem nodup_filter_beq_eq {β : Type} [BEq β] [LawfulBEq β] (l : List β) (hnd : l.Nodup)
    (b : β) : l.filter (fun x => x == b) = if b ∈ l then [b] else [] := by
  induction l with
  | nil => simp
  | cons x xs ih =>
    rw [List.nodup_cons] at hnd
    by_cases hx : x = b
    · subst hx
      have hfil : xs.filter (fun y => y == x) = [] :=
        List.filter_eq_nil_iff.mpr (fun y hy hby => hnd.1 (eq_of_beq hby ▸ hy))
      rw [List.filter_cons_of_pos (by simp), hfil, if_pos (List.mem_cons_self x xs)]
    · rw [List.filter_cons_of_neg (by simpa using hx), ih hnd.2]
      by_cases hb : b ∈ xs
      · rw [if_pos hb, if_pos (List.mem_cons_of_mem x hb)]
      · rw [if_neg hb, if_neg (fun hmem => ?_)]
        rcases List.mem_cons.mp hmem with he | he
        · exact hx (Eq.symm he)
        · exact hb he

theorem new_records_eq_filter (ongCols : List String) (nd : DF) (el src : String)
    (newOnly : List (Option String × Option String)) (hnd : newOnly.Nodup) :
    new_records ongCols nd el src newOnly =
      (nd.rows.filter (fun rn => newOnly.contains (idOf nd.cols rn))).map
        (new_record_row ongCols nd el src) := by
  unfold new_records
  refine congrArg (List.map _) ?_
  induction nd.rows with
  | nil => rfl
  | cons rn rows ih =>
    rw [List.flatMap_cons, ih, nodup_filter_beq_eq newOnly hnd (idOf nd.cols rn)]
    by_cases hmem : idOf nd.cols rn ∈ newOnly
    · rw [if_pos hmem, List.filter_cons_of_pos (by simpa using hmem)]
      rfl
    · rw [if_neg hmem, List.filter_cons_of_neg (by simpa using hmem)]
      rfl

theorem new_record_row_getVal (ongCols : List String) (nd : DF) (el src : String)
    (rn : Row) (c : String) (hc : ongCols.contains c = true) :
    getVal ongCols (new_record_row ongCols nd el src rn) c =
      if c == el then getVal nd.cols rn src else getVal nd.cols rn c := by
  unfold new_record_row
  rw [getVal_map_self, if_pos hc]

theorem new_record_row_id (ongCols : List String) (nd : DF) (el src : String) (rn : Row)
    (h1 : ongCols.contains "Név" = true) (h2 : ongCols.contains "Születési dátum" = true)
    (hne1 : "Név" ≠ el) (hne2 : "Születési dátum" ≠ el) :
    idOf ongCols (new_record_row ongCols nd el src rn) = idOf nd.cols rn := by
  unfold idOf
  rw [new_record_row_getVal ongCols nd el src rn _ h1,
    new_record_row_getVal ongCols nd el src rn _ h2]
  rw [if_neg (by simpa using hne1), if_neg (by simpa using hne2)]

theorem filter_contains_length {β : Type} [BEq β] [LawfulBEq β] (A B : List β)
    (hAn : A.Nodup) (hBn : B.Nodup) (hcov : ∀ b ∈ B, b ∈ A) :
    (A.filter (fun x => B.contains x)).length = B.length := by
  have hsub1 : A.filter (fun x => B.contains x) ⊆ B := by
    intro x hx
    have := (List.mem_filter.mp hx).2
    simpa using this
  have hsub2 : B ⊆ A.filter (fun x => B.contains x) := by
    intro b hb
    exact List.mem_filter.mpr ⟨hcov b hb, by simpa using hb⟩
  exact Nat.le_antisymm
    ((List.subperm_of_subset (hAn.filter _) hsub1).length_le)
    ((List.subperm_of_subset hBn hsub2).length_le)

theorem rows1_mem_spec (ong nd : DF) (el src : String) (rows1 : List Row)
    (hwf : WF ong)
    (hndI : (nd.rows.map (idOf nd.cols)).Nodup)
    (hpres : ∀ rn ∈ nd.rows,
      (idOf nd.cols rn).1.isSome = true ∧ (idOf nd.cols rn).2.isSome = true)
    (hel : isDated el = true)
    (hupd : update_commons (ong2Of ong el).cols el src nd (ong2Of ong el).rows
      (common_people (ong2Of ong el) nd) = some rows1)
    (r : Row) (hr : r ∈ rows1) :
    ∃ ro ∈ ong.rows,
      r.length = (ong2Of ong el).cols.length ∧
      (∀ c, c ≠ el → getVal (ong2Of ong el).cols r c = getVal ong.cols ro c) ∧
      (∀ rn ∈ nd.rows, idOf nd.cols rn = idOf ong.cols ro →
        getVal (ong2Of ong el).cols r el = getVal nd.cols rn src) ∧
      ((∀ rn ∈ nd.rows, idOf nd.cols rn ≠ idOf ong.cols ro) →
        getVal (ong2Of ong el).cols r el = getVal ong.cols ro el) := by
  obtain ⟨ext, hcols, hrows, hext⟩ := ong2_spec ong el
  obtain ⟨hne1, hne2⟩ := isDated_ne_id el hel
  have hrows1 := merge_rows1_eq ong nd el src rows1 hpres hupd
  rw [hrows1, hrows] at hr
  obtain ⟨w, hw, hre⟩ := List.mem_map.mp hr
  obtain ⟨ro, hromem, hwe⟩ := List.mem_map.mp hw
  subst hre
  subst hwe
  have hro_len : ro.length = ong.cols.length := hwf ro hromem
  have hw_len : (ro ++ List.replicate ext.length (none : Option String)).length =
      (ong2Of ong el).cols.length := by
    rw [hcols, List.length_append, List.length_append, List.length_replicate, hro_len]
  have hwid : ∀ c, getVal (ong2Of ong el).cols
      (ro ++ List.replicate ext.length (none : Option String)) c = getVal ong.cols ro c :=
    fun c => by rw [hcols]; exact widen_getVal ong.cols ext ro ext.length c hro_len.symm
  have hidw : idOf (ong2Of ong el).cols
      (ro ++ List.replicate ext.length (none : Option String)) = idOf ong.cols ro := by
    unfold idOf
    rw [hwid, hwid]
  refine ⟨ro, hromem, ?_, ?_, ?_, ?_⟩
  · rw [chain_length, hw_len]
  · intro c hc
    exact (chain_frame _ el src nd _ _ c hc).trans (hwid c)
  · intro rn hrn hid
    have hpmem : idOf ong.cols ro ∈ common_people (ong2Of ong el) nd := by
      refine (common_people_mem _ _ _).mpr
        ⟨ro ++ List.replicate ext.length (none : Option String), ?_, hidw.symm, rn, hrn, ?_⟩
      · rw [hrows]
        exact List.mem_map_of_mem _ hromem
      · rw [hidw, hid]
    have hpres_rn := hpres rn hrn
    have hp1 : (idOf ong.cols ro).1.isSome = true := by rw [← hid]; exact hpres_rn.1
    have hp2 : (idOf ong.cols ro).2.isSome = true := by rw [← hid]; exact hpres_rn.2
    have hmaskw : maskMatch (ong2Of ong el).cols
        (ro ++ List.replicate ext.length (none : Option String)) (idOf ong.cols ro) = true :=
      maskMatch_of_idOf _ _ _ hidw hp1 hp2
    have hall : ∀ q ∈ common_people (ong2Of ong el) nd,
        maskMatch (ong2Of ong el).cols
          (ro ++ List.replicate ext.length (none : Option String)) q = true →
        lookup_missing_date nd src q = some (getVal nd.cols rn src) := by
      intro q hq hmq
      have hqe : q = idOf ong.cols ro := by
        have hqw := (maskMatch_idOf_eq _ _ q hmq).1
        rw [← hqw, hidw]
      rw [hqe, ← hid]
      exact lookup_at_id nd src rn hrn hndI hpres_rn.1 hpres_rn.2
    exact chain_hit _ el src nd _ _ (getVal nd.cols rn src) hw_len
      (ong2_contains_el ong el) hne1 hne2 ⟨idOf ong.cols ro, hpmem, hmaskw⟩ hall
  · intro hnone
    have hfalse : ∀ q ∈ common_people (ong2Of ong el) nd,
        maskMatch (ong2Of ong el).cols
          (ro ++ List.replicate ext.length (none : Option String)) q = true → False := by
      intro q hq hmq
      obtain ⟨ro'', hro'', hqe, rn'', hrn'', hid''⟩ := (common_people_mem _ _ _).mp hq
      have hqw := (maskMatch_idOf_eq _ _ q hmq).1
      refine hnone rn'' hrn'' ?_
      rw [hid'', ← hqe, ← hqw, hidw]
    have hchain : chainUpd (ong2Of ong el).cols el src nd
        (common_people (ong2Of ong el) nd)
        (ro ++ List.replicate ext.length (none : Option String)) =
        ro ++ List.replicate ext.length (none : Option String) :=
      chain_id _ el src nd _ _ (fun q hq hm => (hfalse q hq hm).elim)
    rw [hchain]
    exact hwid el

theorem rows1_ids (ong nd : DF) (el src : String) (rows1 : List Row)
    (hwf : WF ong)
    (hpres : ∀ rn ∈ nd.rows,
      (idOf nd.cols rn).1.isSome = true ∧ (idOf nd.cols rn).2.isSome = true)
    (hel : isDated el = true)
    (hupd : update_commons (ong2Of ong el).cols el src nd (ong2Of ong el).rows
      (common_people (ong2Of ong el) nd) = some rows1) :
    rows1.map (idOf (ong2Of ong el).cols) = ong.rows.map (idOf ong.cols) := by
  obtain ⟨ext, hcols, hrows, hext⟩ := ong2_spec ong el
  obtain ⟨hne1, hne2⟩ := isDated_ne_id el hel
  have hrows1 := merge_rows1_eq ong nd el src rows1 hpres hupd
  rw [hrows1, hrows, List.map_map, List.map_map]
  refine List.map_congr_left (fun ro hromem => ?_)
  have hro_len : ro.length = ong.cols.length := hwf ro hromem
  have hwid : ∀ c, getVal (ong2Of ong el).cols
      (ro ++ List.replicate ext.length (none : Option String)) c = getVal ong.cols ro c :=
    fun c => by rw [hcols]; exact widen_getVal ong.cols ext ro ext.length c hro_len.symm
  show idOf (ong2Of ong el).cols
      (chainUpd (ong2Of ong el).cols el src nd (common_people (ong2Of ong el) nd)
        (ro ++ List.replicate ext.length (none : Option String))) = idOf ong.cols ro
  unfold idOf
  rw [chain_frame _ el src nd _ _ _ hne1, chain_frame _ el src nd _ _ _ hne2, hwid, hwid]

set_option maxHeartbeats 2000000 in
/-- C7: re-running the merge with the same incoming snapshot and the same
cycle date on the ledger produced by a first successful merge is
idempotent: the second run succeeds, returns the very same ledger, adds
nothing (NewOnly = 0), and reports every incoming row as Common. -/
theorem c7_merge_idempotent (ong nd : DF) (d : String) (L1 : DF) (s1 : MergeStats)
    (hwf : WF ong)
    (hndL : (ong.rows.map (idOf ong.cols)).Nodup)
    (hndI : (nd.rows.map (idOf nd.cols)).Nodup)
    (hpres : ∀ rn ∈ nd.rows,
      (idOf nd.cols rn).1.isSome = true ∧ (idOf nd.cols rn).2.isSome = true)
    (h1 : merge_flow ong nd d = MergeResult.ok L1 s1) :
    ∃ s2, merge_flow L1 nd d = MergeResult.ok L1 s2 ∧
      s2.numNew = 0 ∧ s2.numCommon = (nd.rows.length : Int) := by
  obtain ⟨el, src, rows1, hpick, hreq, ho, hn, hupd, hout, hstats⟩ :=
    merge_flow_ok_inv ong nd d L1 s1 h1
  have hel : isDated el = true := pickEltunes_dated nd d el src hpick
  obtain ⟨hne1, hne2⟩ := isDated_ne_id el hel
  have hL1cols : L1.cols = (ong2Of ong el).cols := by rw [hout]
  have hL1rows : L1.rows = rows2Of (ong2Of ong el).cols nd el src rows1 := by rw [hout]
  have hNOnodup : (new_only_people ⟨(ong2Of ong el).cols, rows1⟩ nd).Nodup :=
    new_only_nodup _ nd hndI
  have hsplit : L1.rows = rows1 ++
      (if (new_only_people ⟨(ong2Of ong el).cols, rows1⟩ nd).isEmpty then []
        else new_records (ong2Of ong el).cols nd el src
          (new_only_people ⟨(ong2Of ong el).cols, rows1⟩ nd)) := by
    rw [hL1rows]
    unfold rows2Of
    simp only []
    split
    · simp
    · rfl
  have hNR := new_records_eq_filter (ong2Of ong el).cols nd el src
    (new_only_people ⟨(ong2Of ong el).cols, rows1⟩ nd) hNOnodup
  -- the dated value every ledger row carries after the first merge
  have hRVAL : ∀ r ∈ L1.rows, ∀ q ∈ common_people L1 nd,
      maskMatch L1.cols r q = true →
      lookup_missing_date nd src q = some (getVal L1.cols r el) := by
    intro r hr q hq hm
    obtain ⟨hqid, hq1, hq2⟩ := maskMatch_idOf_eq L1.cols r q hm
    obtain ⟨ro2, hro2, hqe, rn', hrn', hid'⟩ := (common_people_mem L1 nd q).mp hq
    have hlook : lookup_missing_date nd src q = some (getVal nd.cols rn' src) := by
      rw [show q = idOf nd.cols rn' from by rw [hid', ← hqe]]
      exact lookup_at_id nd src rn' hrn' hndI (hpres rn' hrn').1 (hpres rn' hrn').2
    rw [hsplit] at hr
    rcases List.mem_append.mp hr with hr1 | hr2
    · obtain ⟨ro, hromem, hlen, hframe, hcommon, hnomatch⟩ :=
        rows1_mem_spec ong nd el src rows1 hwf hndI hpres hel hupd r hr1
      have hidr : idOf L1.cols r = idOf ong.cols ro := by
        rw [hL1cols]
        unfold idOf
        rw [hframe _ hne1, hframe _ hne2]
      have hval : getVal L1.cols r el = getVal nd.cols rn' src := by
        rw [hL1cols]
        refine hcommon rn' hrn' ?_
        rw [hid', ← hqe, ← hqid, hidr]
      rw [hlook, hval]
    · have hr2' : r ∈ new_records (ong2Of ong el).cols nd el src
          (new_only_people ⟨(ong2Of ong el).cols, rows1⟩ nd) := by
        rcases em ((new_only_people ⟨(ong2Of ong el).cols, rows1⟩ nd).isEmpty = true) with
          he | he
        · rw [if_pos he] at hr2
          simp at hr2
        · rw [if_neg he] at hr2
          exact hr2
      rw [hNR] at hr2'
      obtain ⟨rn0, hrn0f, hre⟩ := List.mem_map.mp hr2'
      have hrn0 : rn0 ∈ nd.rows := (List.mem_filter.mp hrn0f).1
      have hcb1 : (ong2Of ong el).cols.contains "Név" = true :=
        ong2_contains_base ong el _ (by decide)
      have hcb2 : (ong2Of ong el).cols.contains "Születési dátum" = true :=
        ong2_contains_base ong el _ (by decide)
      have hidr : idOf L1.cols r = idOf nd.cols rn0 := by
        rw [hL1cols, ← hre]
        exact new_record_row_id _ nd el src rn0 hcb1 hcb2 hne1 hne2
      have hrn'0 : rn' = rn0 := by
        refine map_nodup_inj nd.rows (idOf nd.cols) hndI hrn' hrn0 ?_
        rw [hid', ← hqe, ← hqid, hidr]
      have hval : getVal L1.cols r el = getVal nd.cols rn0 src := by
        rw [hL1cols, ← hre,
          new_record_row_getVal _ nd el src rn0 el (ong2_contains_el ong el)]
        rw [if_pos (by simp)]
      rw [hlook, hval, hrn'0]
  -- every incoming row already has a ledger row with its id
  have hCOV : ∀ rn ∈ nd.rows, ∃ r ∈ L1.rows, idOf L1.cols r = idOf nd.cols rn := by
    intro rn hrn
    by_cases hmatch : rows1.any
      (fun ro => idOf (ong2Of ong el).cols ro == idOf nd.cols rn) = true
    · obtain ⟨ro1, hro1, hbeq⟩ := List.any_eq_true.mp hmatch
      refine ⟨ro1, by rw [hsplit]; exact List.mem_append.mpr (Or.inl hro1), ?_⟩
      rw [hL1cols]
      simpa using hbeq
    · have hmemNO : idOf nd.cols rn ∈ new_only_people ⟨(ong2Of ong el).cols, rows1⟩ nd := by
        refine (new_only_people_mem _ nd _).mpr ⟨rn, hrn, rfl, fun ro hro he => ?_⟩
        exact hmatch (List.any_eq_true.mpr ⟨ro, hro, by simpa using he⟩)
      have hNOne : (new_only_people ⟨(ong2Of ong el).cols, rows1⟩ nd).isEmpty = false := by
        rw [Bool.eq_false_iff]
        intro hemp
        rw [List.isEmpty_iff] at hemp
        rw [hemp] at hmemNO
        simp at hmemNO
      refine ⟨new_record_row (ong2Of ong el).cols nd el src rn, ?_, ?_⟩
      · rw [hsplit, if_neg (by rw [hNOne]; exact Bool.false_ne_true)]
        refine List.mem_append.mpr (Or.inr ?_)
        rw [hNR]
        exact List.mem_map_of_mem _ (List.mem_filter.mpr ⟨hrn, by simpa using hmemNO⟩)
      · rw [hL1cols]
        exact new_record_row_id _ nd el src rn
          (ong2_contains_base ong el _ (by decide))
          (ong2_contains_base ong el _ (by decide)) hne1 hne2
  -- ledger ids after the first merge are still duplicate free
  have hids1 : rows1.map (idOf (ong2Of ong el).cols) = ong.rows.map (idOf ong.cols) :=
    rows1_ids ong nd el src rows1 hwf hpres hel hupd
  have hndL1 : (L1.rows.map (idOf L1.cols)).Nodup := by
    rw [hL1cols, hsplit, List.map_append, List.nodup_append]
    by_cases he : (new_only_people ⟨(ong2Of ong el).cols, rows1⟩ nd).isEmpty = true
    · rw [if_pos he]
      refine ⟨by rw [hids1]; exact hndL, by simp, ?_⟩
      intro x hx1 hx2
      simp at hx2
    · rw [if_neg he]
      refine ⟨by rw [hids1]; exact hndL, ?_, ?_⟩
      · rw [hNR, List.map_map]
        have heq : (nd.rows.filter (fun rn =>
            (new_only_people ⟨(ong2Of ong el).cols, rows1⟩ nd).contains
              (idOf nd.cols rn))).map
            (idOf (ong2Of ong el).cols ∘ new_record_row (ong2Of ong el).cols nd el src) =
            (nd.rows.filter (fun rn =>
              (new_only_people ⟨(ong2Of ong el).cols, rows1⟩ nd).contains
                (idOf nd.cols rn))).map (idOf nd.cols) := by
          refine List.map_congr_left (fun rn hrn => ?_)
          exact new_record_row_id _ nd el src rn
            (ong2_contains_base ong el _ (by decide))
            (ong2_contains_base ong el _ (by decide)) hne1 hne2
        rw [heq]
        exact hndI.sublist (List.Sublist.map _ (List.filter_sublist _))
      · intro x hx1 hx2
        rw [hNR, List.map_map] at hx2
        obtain ⟨rn0, hrn0f, hre⟩ := List.mem_map.mp hx2
        obtain ⟨hrn0, hcont⟩ := List.mem_filter.mp hrn0f
        have hmemNO : idOf nd.cols rn0 ∈
            new_only_people ⟨(ong2Of ong el).cols, rows1⟩ nd := by simpa using hcont
        obtain ⟨rn1, hrn1, hpe, hnone⟩ := (new_only_people_mem _ nd _).mp hmemNO
        obtain ⟨ro1, hro1, hroe⟩ := List.mem_map.mp hx1
        have hxid : x = idOf nd.cols rn0 := by
          rw [← hre]
          exact new_record_row_id _ nd el src rn0
            (ong2_contains_base ong el _ (by decide))
            (ong2_contains_base ong el _ (by decide)) hne1 hne2
        refine hnone ro1 hro1 ?_
        rw [← hpe, ← hxid, hroe]
  -- the second run through the guards
  have hlen1 : rows1.length = ong.rows.length := by
    have hu := update_commons_some_length _ _ _ _ _ _ _ hupd
    obtain ⟨ext, h1x, h2x, h3x⟩ := ong2_spec ong el
    rw [h2x, List.length_map] at hu
    exact hu
  have hL1ne : L1.rows.isEmpty = false := by
    have h1len : L1.rows.length ≠ 0 := by
      rw [hsplit, List.length_append, hlen1]
      intro hz
      have hoz : ong.rows.length = 0 := by omega
      rw [List.length_eq_zero] at hoz
      rw [hoz] at ho
      simp at ho
    cases hL : L1.rows with
    | nil =>
      rw [hL] at h1len
      simp at h1len
    | cons a b => rfl
  have hguard2 : (L1.rows.isEmpty || nd.rows.isEmpty) = false := by
    rw [hL1ne, hn, Bool.or_false]
  have hbase2 : ∀ c ∈ requiredBase, L1.cols.contains c = true := fun c hc => by
    rw [hL1cols]
    exact ong2_contains_base ong el c hc
  have helc2 : L1.cols.contains el = true := by
    rw [hL1cols]
    exact ong2_contains_el ong el
  have hong2' : ong2Of L1 el = L1 := ong2_of_self L1 el hbase2 helc2
  have hupd2 : update_commons L1.cols el src nd L1.rows (common_people L1 nd) =
      some L1.rows := by
    rw [update_commons_eq _ _ _ _ _ _
      (fun p hp => commons_lookup_isSome L1 nd src hpres p hp)]
    refine congrArg some ?_
    have hid_all : ∀ r ∈ L1.rows,
        chainUpd L1.cols el src nd (common_people L1 nd) r = r := fun r hr =>
      chain_id _ el src nd _ r (fun q hq hm => hRVAL r hr q hq hm)
    have hmapid : L1.rows.map (chainUpd L1.cols el src nd (common_people L1 nd)) =
        L1.rows.map id := List.map_congr_left (fun r hr => hid_all r hr)
    rw [hmapid, List.map_id]
  have hNO2 : new_only_people ⟨L1.cols, L1.rows⟩ nd = [] := by
    show new_only_people L1 nd = []
    unfold new_only_people
    have hfe : nd.rows.filter (fun rn =>
        !(L1.rows.any (fun ro => idOf L1.cols ro == idOf nd.cols rn))) = [] := by
      refine List.filter_eq_nil_iff.mpr (fun rn hrn hneg => ?_)
      obtain ⟨r, hrmem, hrid⟩ := hCOV rn hrn
      rw [Bool.not_eq_true', List.any_eq_false] at hneg
      exact absurd (by simpa using hrid) (by simpa using hneg r hrmem)
    rw [hfe]
    rfl
  have hrows2' : rows2Of L1.cols nd el src L1.rows = L1.rows := by
    unfold rows2Of
    simp only []
    rw [hNO2]
    rfl
  have hcommons2 : (common_people L1 nd).length = nd.rows.length := by
    unfold common_people
    rw [length_flatMap_indicator L1.rows _
      (fun ro => (nd.rows.map (idOf nd.cols)).contains (idOf L1.cols ro))
      (fun ro hro => ?_)]
    · have hcov : ∀ b ∈ nd.rows.map (idOf nd.cols), b ∈ L1.rows.map (idOf L1.cols) := by
        intro b hb
        obtain ⟨rn, hrn, hbe⟩ := List.mem_map.mp hb
        obtain ⟨r, hrmem, hrid⟩ := hCOV rn hrn
        exact List.mem_map.mpr ⟨r, hrmem, by rw [hrid, hbe]⟩
      have hflt := filter_contains_length (L1.rows.map (idOf L1.cols))
        (nd.rows.map (idOf nd.cols)) hndL1 hndI hcov
      rw [List.filter_map] at hflt
      rw [List.length_map] at hflt
      rw [List.length_map] at hflt
      rw [← hflt]
      rfl
    · rw [List.length_map,
        filter_key_len nd.rows (idOf nd.cols) hndI (idOf L1.cols ro)]
      by_cases hmem : idOf L1.cols ro ∈ nd.rows.map (idOf nd.cols)
      · rw [if_pos hmem, if_pos (by simpa using hmem)]
      · rw [if_neg hmem, if_neg (by simpa using hmem)]
  refine ⟨⟨(L1.rows.length : Int), (nd.rows.length : Int),
    ((common_people L1 nd).length : Int), 0,
    (L1.rows.length : Int) - ((common_people L1 nd).length : Int) - 0,
    (L1.rows.length : Int)⟩, ?_, rfl, by rw [hcommons2]⟩
  unfold merge_flow
  rw [hguard2, if_neg Bool.false_ne_true, hpick]
  show (if (!(["Név", "Születési dátum", src].all (fun c => nd.cols.contains c))) = true
      then MergeResult.err MergeError.missingRequired
      else merge_main L1 nd el src) = _
  rw [hreq]
  show merge_main L1 nd el src = _
  unfold merge_main
  simp only []
  rw [hong2', hupd2]
  show MergeResult.ok ⟨L1.cols, rows2Of L1.cols nd el src L1.rows⟩ _ = _
  rw [hrows2', hNO2]
  show MergeResult.ok L1 _ = _
  refine congrArg (MergeResult.ok L1) ?_
  show MergeStats.mk _ _ _ _ _ _ = MergeStats.mk _ _ _ _ _ _
  rw [List.length_nil]
  norm_num

theorem c7_merge_idempotent_witness :
    (WF ⟨["Név", "Születési dátum"],
        [[some "A", some "2000-01-01"], [some "C", some "1980-03-03"]]⟩ ∧
      ((⟨["Név", "Születési dátum"],
        [[some "A", some "2000-01-01"], [some "C", some "1980-03-03"]]⟩ : DF).rows.map
          (idOf ["Név", "Születési dátum"])).Nodup ∧
      ((⟨["Név", "Születési dátum", "Eltűnés dátuma 2026-10-12"],
        [[some "A", some "2000-01-01", some "2026-10-12"],
          [some "B", some "1990-02-02", some "2026-10-12"]]⟩ : DF).rows.map
          (idOf ["Név", "Születési dátum", "Eltűnés dátuma 2026-10-12"])).Nodup ∧
      (∀ rn ∈ (⟨["Név", "Születési dátum", "Eltűnés dátuma 2026-10-12"],
        [[some "A", some "2000-01-01", some "2026-10-12"],
          [some "B", some "1990-02-02", some "2026-10-12"]]⟩ : DF).rows,
        (idOf ["Név", "Születési dátum", "Eltűnés dátuma 2026-10-12"] rn).1.isSome = true ∧
        (idOf ["Név", "Születési dátum", "Eltűnés dátuma 2026-10-12"] rn).2.isSome = true) ∧
      merge_flow
          ⟨["Név", "Születési dátum"],
            [[some "A", some "2000-01-01"], [some "C", some "1980-03-03"]]⟩
          ⟨["Név", "Születési dátum", "Eltűnés dátuma 2026-10-12"],
            [[some "A", some "2000-01-01", some "2026-10-12"],
              [some "B", some "1990-02-02", some "2026-10-12"]]⟩ "2026-10-12" =
        MergeResult.ok
          ⟨["Név", "Születési dátum", "Nem", "Születési hely", "Születési ország",
              "Eltűnés dátuma 2026-10-12"],
            [[some "A", some "2000-01-01", none, none, none, some "2026-10-12"],
              [some "C", some "1980-03-03", none, none, none, none],
              [some "B", some "1990-02-02", none, none, none, some "2026-10-12"]]⟩
          ⟨2, 2, 1, 1, 1, 3⟩) ∧
    (∃ s2,
      merge_flow
          ⟨["Név", "Születési dátum", "Nem", "Születési hely", "Születési ország",
              "Eltűnés dátuma 2026-10-12"],
            [[some "A", some "2000-01-01", none, none, none, some "2026-10-12"],
              [some "C", some "1980-03-03", none, none, none, none],
              [some "B", some "1990-02-02", none, none, none, some "2026-10-12"]]⟩
          ⟨["Név", "Születési dátum", "Eltűnés dátuma 2026-10-12"],
            [[some "A", some "2000-01-01", some "2026-10-12"],
              [some "B", some "1990-02-02", some "2026-10-12"]]⟩ "2026-10-12" =
        MergeResult.ok
          ⟨["Név", "Születési dátum", "Nem", "Születési hely", "Születési ország",
              "Eltűnés dátuma 2026-10-12"],
            [[some "A", some "2000-01-01", none, none, none, some "2026-10-12"],
              [some "C", some "1980-03-03", none, none, none, none],
              [some "B", some "1990-02-02", none, none, none, some "2026-10-12"]]⟩ s2 ∧
      s2.numNew = 0 ∧
      s2.numCommon = ((⟨["Név", "Születési dátum", "Eltűnés dátuma 2026-10-12"],
        [[some "A", some "2000-01-01", some "2026-10-12"],
          [some "B", some "1990-02-02", some "2026-10-12"]]⟩ : DF).rows.length : Int)) :=
  ⟨⟨by decide, by decide, by decide, by decide, by decide⟩,
    c7_merge_idempotent
      ⟨["Név", "Születési dátum"],
        [[some "A", some "2000-01-01"], [some "C", some "1980-03-03"]]⟩
      ⟨["Név", "Születési dátum", "Eltűnés dátuma 2026-10-12"],
        [[some "A", some "2000-01-01", some "2026-10-12"],
          [some "B", some "1990-02-02", some "2026-10-12"]]⟩ "2026-10-12"
      ⟨["Név", "Születési dátum", "Nem", "Születési hely", "Születési ország",
          "Eltűnés dátuma 2026-10-12"],
        [[some "A", some "2000-01-01", none, none, none, some "2026-10-12"],
          [some "C", some "1980-03-03", none, none, none, none],
          [some "B", some "1990-02-02", none, none, none, some "2026-10-12"]]⟩
      ⟨2, 2, 1, 1, 1, 3⟩ (by decide) (by decide) (by decide) (by decide) (by decide)⟩
